import Mathlib

/-!
# Typed environment accessors (`package env`)

A shallow embedding of `env.go`: the raw lookup `getEnv`, the generic `Parse`, the
typed scalar accessors, the `List` accessor and the parser catalogue `Parsers`,
together with the standard-library routines they call (`os.LookupEnv`,
`strings.Split`, `strings.TrimSpace`, `strconv.Atoi`, `strconv.ParseInt`).

Modelling conventions.
* A Go `string` is a Lean `String`, read as its sequence of code points.
* The process environment is a finite map from names to values, given as a function
  `String → Option String`; nothing in `env.go` writes to it.
* A Go `error` value is a term of the inductive type `error`; the `nil` error is `none`.
* A Go result pair `(T, error)` is a Lean pair `T × Option error`: Go functions that
  fail still return a value next to the error and the embedding keeps it.
* A call that may `panic(err)` returns `Except error T`; `.error err` is the panic
  carrying `err`, `.ok v` is a normal return of `v`.
* Go `int` and `int64` are Lean `Int`; where a machine operation may overflow the
  wrap-around is written out with `wrapInt`.  The width of `int` is the parameter
  `intSize` (32 or 64).
* `strconv.ParseFloat` and `time.ParseDuration` are external routines; the accessors
  that use them take them as parameters.  Their behaviour on the empty string is
  modelled, the rest of each is again a parameter.
* To state what a call does to the process state, each accessor also has a `.call` form,
  a step from the state before the call to the outcome and the state after, in which the
  parser is a Go closure that may read and write the environment and what it captures.
-/

/-! ## Go basic types -/

/-- Go `string`. -/
abbrev GoString := String

/-- Go `int64`, as a mathematical integer. -/
abbrev GoInt64 := Int

/-- Go `int`, as a mathematical integer. -/
abbrev GoInt := Int

/-- Go `bool`. -/
abbrev GoBool := Bool

/-- Go slice `[]T`, as the list of its elements. -/
abbrev Slice (T : Type) := List T

/-- Go `error` values produced by the routines modelled here: `errors.New(text)` and
`*strconv.NumError{Func, Num, Err}`. -/
inductive error where
  | New (text : String)
  | NumError (Func : String) (Num : String) (Err : error)
  deriving DecidableEq, Repr

/-- The process environment: the value bound to each name, if any. -/
abbrev Environ := String → Option String

/-- Go `os.LookupEnv(key)`: the value and whether the variable is present; the value is
empty when it is not. -/
def os.LookupEnv (environ : Environ) (key : GoString) : GoString × GoBool :=
  match environ key with
  | some v => (v, true)
  | none => ("", false)

/-! ## `env.go` -/

/-- Go `getEnv`: returns the value of the environment variable and a flag indicating
whether the variable exists. -/
def env.getEnv (environ : Environ) (key : GoString) : GoString × GoBool :=
  let (v, exists_) := os.LookupEnv environ key
  (v, exists_)

/-- Go `must`: panics if the error is not nil, otherwise returns `v`. -/
def env.must {T : Type} (r : T × Option error) : Except error T :=
  match r.2 with
  | some err => Except.error err
  | none => Except.ok r.1

/-- Go `type Parser[T any] func(v string) (T, error)`. -/
abbrev env.Parser (T : Type) := GoString → T × Option error

/-- Go `Parse`: the fallback when the key does not exist, otherwise `must(parser(v))`. -/
def env.Parse {T : Type} (environ : Environ) (key : GoString) (parser : env.Parser T)
    (fallback : T) : Except error T :=
  let (v, exists_) := env.getEnv environ key
  if !exists_ then
    Except.ok fallback
  else
    env.must (parser v)

/-- Go `Parsers.Identity()`: returns the given input as the output, with a nil error. -/
def env.parsers.Identity : env.Parser GoString :=
  fun v => (v, none)

/-! ## Standard library: `unicode`, `strings` -/

/-- Go `unicode.IsSpace`: the Latin-1 spaces `\t \n \v \f \r`, space, U+0085, U+00A0, and
the code points with the Unicode `White_Space` property above Latin-1. -/
def unicode.IsSpace (r : Char) : Bool :=
  let n := r.toNat
  (9 ≤ n && n ≤ 13) || n == 0x20 || n == 0x85 || n == 0xA0 || n == 0x1680 ||
    (0x2000 ≤ n && n ≤ 0x200A) || n == 0x2028 || n == 0x2029 || n == 0x202F ||
    n == 0x205F || n == 0x3000

/-- Go `strings.TrimSpace(s)`: `s` with all leading and trailing white space removed, as
defined by Unicode. -/
def strings.TrimSpace (s : GoString) : GoString :=
  ⟨(((s.data.dropWhile unicode.IsSpace).reverse).dropWhile unicode.IsSpace).reverse⟩

/-- The scan of `strings.Split` for a one-character separator: `cur` holds, reversed, the
characters read since the last separator. -/
def strings.Split.scan (sep : Char) : List Char → List Char → List GoString
  | cur, [] => [⟨cur.reverse⟩]
  | cur, c :: cs =>
    if c = sep then ⟨cur.reverse⟩ :: strings.Split.scan sep [] cs
    else strings.Split.scan sep (c :: cur) cs

/-- Go `strings.Split(s, sep)` for a separator of one character (`env.go` passes `","`):
the substrings between the separators, in order; one more than there are separators. -/
def strings.Split (s : GoString) (sep : Char) : List GoString :=
  strings.Split.scan sep [] s.data

/-- Go `strings.Join(elems, sep)`. -/
def strings.Join : List GoString → GoString → GoString
  | [], _ => ""
  | [a], _ => a
  | a :: b :: rest, sep => a ++ sep ++ strings.Join (b :: rest) sep

/-! ## Standard library: `strconv` -/

/-- Two's-complement reading of an integer in `w` bits: the conversion to a signed
machine integer of width `w`. -/
def wrapInt (w : Nat) (x : Int) : Int :=
  (x + 2 ^ (w - 1)) % 2 ^ w - 2 ^ (w - 1)

/-- Go `strconv.ErrSyntax`. -/
def strconv.ErrSyntax : error := error.New "invalid syntax"

/-- Go `strconv.ErrRange`. -/
def strconv.ErrRange : error := error.New "value out of range"

/-- Go `strconv.syntaxError(fn, str)`. -/
def strconv.syntaxError (fn str : GoString) : error :=
  error.NumError fn str strconv.ErrSyntax

/-- Go `strconv.rangeError(fn, str)`. -/
def strconv.rangeError (fn str : GoString) : error :=
  error.NumError fn str strconv.ErrRange

/-- Go `strconv.bitSizeError(fn, str, bitSize)`. -/
def strconv.bitSizeError (fn str : GoString) (bitSize : Nat) : error :=
  error.NumError fn str (error.New ("invalid bit size " ++ toString bitSize))

/-- Go `strconv.lower(c)`: `c | ('x' - 'X')` on a byte. -/
def strconv.lower (c : Nat) : Nat := c ||| 0x20

/-- The digit switch of `strconv.ParseUint` (with `base0` false) on one character: the
digit value, or `none` for the `default` case.  Every byte of a code point above
U+007F is at least `0x80` and takes the `default` case. -/
def strconv.ParseUint.digit (c : Char) : Option Nat :=
  if 128 ≤ c.toNat then none
  else if 48 ≤ c.toNat ∧ c.toNat ≤ 57 then some (c.toNat - 48)
  else if 97 ≤ strconv.lower c.toNat ∧ strconv.lower c.toNat ≤ 122 then
    some (strconv.lower c.toNat - 97 + 10)
  else none

/-- The digit loop of `strconv.ParseUint` in base 10, on `uint64` arithmetic. -/
def strconv.ParseUint.loop (s0 : GoString) (cutoff maxVal : Nat) :
    List Char → Nat → Nat × Option error
  | [], n => (n, none)
  | c :: cs, n =>
    match strconv.ParseUint.digit c with
    | none => (0, some (strconv.syntaxError "ParseUint" s0))
    | some d =>
      if d ≥ 10 then (0, some (strconv.syntaxError "ParseUint" s0))
      else if n ≥ cutoff then (maxVal, some (strconv.rangeError "ParseUint" s0))
      else
        let m := (n * 10) % 2 ^ 64
        let n1 := (m + d) % 2 ^ 64
        if n1 < m ∨ n1 > maxVal then (maxVal, some (strconv.rangeError "ParseUint" s0))
        else strconv.ParseUint.loop s0 cutoff maxVal cs n1

/-- Go `strconv.ParseUint(s, 10, bitSize)`; `intSize` is `strconv.IntSize`. -/
def strconv.ParseUint (intSize : Nat) (s : GoString) (bitSize : Nat) : Nat × Option error :=
  if s = "" then (0, some (strconv.syntaxError "ParseUint" s))
  else
    let bitSize' := if bitSize = 0 then intSize else bitSize
    if bitSize ≠ 0 ∧ bitSize > 64 then (0, some (strconv.bitSizeError "ParseUint" s bitSize))
    else
      let maxUint64 := 2 ^ 64 - 1
      let cutoff := maxUint64 / 10 + 1
      let maxVal := (2 ^ bitSize' % 2 ^ 64 + 2 ^ 64 - 1) % 2 ^ 64
      strconv.ParseUint.loop s cutoff maxVal s.data 0

/-- The range check that ends `strconv.ParseInt`, on the sign and the unsigned magnitude
`un`: the conversions `int64(...)` and the negation wrap in 64 bits. -/
def strconv.ParseInt.range (intSize : Nat) (s0 : GoString) (bitSize : Nat) (neg : Bool)
    (un : Nat) : GoInt64 × Option error :=
  let bitSize' := if bitSize = 0 then intSize else bitSize
  let cutoff := 2 ^ (bitSize' - 1) % 2 ^ 64
  if !neg ∧ un ≥ cutoff then
    (wrapInt 64 ((cutoff + 2 ^ 64 - 1) % 2 ^ 64 : Nat), some (strconv.rangeError "ParseInt" s0))
  else if neg ∧ un > cutoff then
    (wrapInt 64 (-(wrapInt 64 (cutoff : Nat))), some (strconv.rangeError "ParseInt" s0))
  else
    let n := wrapInt 64 (un : Nat)
    (if neg then wrapInt 64 (-n) else n, none)

/-- Go `strconv.ParseInt(s, 10, bitSize)`; `intSize` is `strconv.IntSize`.  An error of
`ParseUint` other than a range error is returned with `Func` and `Num` rewritten; every
error of `ParseUint` is a `NumError`. -/
def strconv.ParseInt (intSize : Nat) (s : GoString) (bitSize : Nat) : GoInt64 × Option error :=
  if s = "" then (0, some (strconv.syntaxError "ParseInt" s))
  else
    let s0 := s
    let (neg, s1) : Bool × GoString :=
      match s.data with
      | '+' :: r => (false, ⟨r⟩)
      | '-' :: r => (true, ⟨r⟩)
      | _ => (false, s)
    let (un, err) := strconv.ParseUint intSize s1 bitSize
    match err with
    | some (error.NumError _ _ e) =>
      if e ≠ strconv.ErrRange then (0, some (error.NumError "ParseInt" s0 e))
      else strconv.ParseInt.range intSize s0 bitSize neg un
    | _ => strconv.ParseInt.range intSize s0 bitSize neg un

/-- The fast-path digit loop of `strconv.Atoi`: `ch -= '0'` on a byte, a syntax error when
`ch > 9`, otherwise `n = n*10 + int(ch)` on `int` arithmetic.  `none` is the syntax
error. -/
def strconv.Atoi.loop (intSize : Nat) : List Char → GoInt → Option GoInt
  | [], n => some n
  | c :: cs, n =>
    if 128 ≤ c.toNat then none
    else
      let ch := (c.toNat + 256 - 48) % 256
      if ch > 9 then none
      else strconv.Atoi.loop intSize cs (wrapInt intSize (wrapInt intSize (n * 10) + (ch : Nat)))

/-- Go `strconv.Atoi(s)`; `intSize` is the width of `int`; `len(s)` counts bytes. -/
def strconv.Atoi (intSize : Nat) (s : GoString) : GoInt × Option error :=
  let sLen := s.utf8ByteSize
  if (intSize = 32 ∧ (0 < sLen ∧ sLen < 10)) ∨ (intSize = 64 ∧ (0 < sLen ∧ sLen < 19)) then
    let s0 := s
    let signed : Bool := s.data.head? = some '-' || s.data.head? = some '+'
    let s1 : List Char := if signed then s.data.tail else s.data
    if signed ∧ s1.length < 1 then (0, some (strconv.syntaxError "Atoi" s0))
    else
      match strconv.Atoi.loop intSize s1 0 with
      | none => (0, some (strconv.syntaxError "Atoi" s0))
      | some n => (if s0.data.head? = some '-' then wrapInt intSize (-n) else n, none)
  else
    let (i64, err) := strconv.ParseInt intSize s 0
    match err with
    | some (error.NumError _ num e) => (wrapInt intSize i64, some (error.NumError "Atoi" num e))
    | _ => (wrapInt intSize i64, err)

/-- Go `strconv.ParseBool(str)`. -/
def strconv.ParseBool (str : GoString) : GoBool × Option error :=
  if str = "1" ∨ str = "t" ∨ str = "T" ∨ str = "TRUE" ∨ str = "true" ∨ str = "True" then
    (true, none)
  else if str = "0" ∨ str = "f" ∨ str = "F" ∨ str = "FALSE" ∨ str = "false" ∨ str = "False" then
    (false, none)
  else (false, some (strconv.syntaxError "ParseBool" str))

/-! ## `env.go`: the parser catalogue and the accessors -/

/-- Go `Parsers.Duration()`: `time.ParseDuration`, an external routine taken as a
parameter; a `time.Duration` is an `int64` count of nanoseconds. -/
def env.parsers.Duration (ParseDuration : GoString → GoInt64 × Option error) :
    env.Parser GoInt64 :=
  ParseDuration

/-- Go `Parsers.Bool()`: `strconv.ParseBool`. -/
def env.parsers.Bool : env.Parser GoBool :=
  strconv.ParseBool

/-- Go `Parsers.Int()`: `strconv.Atoi`. -/
def env.parsers.Int (intSize : Nat) : env.Parser GoInt :=
  strconv.Atoi intSize

/-- Go `Parsers.Int64()`: `strconv.ParseInt(v, 10, 64)`. -/
def env.parsers.Int64 (intSize : Nat) : env.Parser GoInt64 :=
  fun v => strconv.ParseInt intSize v 64

/-- Go `Parsers.Float64()`: `strconv.ParseFloat(v, 64)`, an external routine taken as a
parameter, over a type `F` of `float64` values. -/
def env.parsers.Float64 {F : Type} (ParseFloat : GoString → Nat → F × Option error) :
    env.Parser F :=
  fun v => ParseFloat v 64

/-- Go `String`: the string value if the key exists, otherwise the fallback. -/
def env.String (environ : Environ) (key fallback : GoString) : Except error GoString :=
  env.Parse environ key env.parsers.Identity fallback

/-- Go `Int`: the int value if the key exists, otherwise the fallback. -/
def env.Int (intSize : Nat) (environ : Environ) (key : GoString) (fallback : GoInt) :
    Except error GoInt :=
  env.Parse environ key (env.parsers.Int intSize) fallback

/-- Go `Int64`: the int64 value if the key exists, otherwise the fallback. -/
def env.Int64 (intSize : Nat) (environ : Environ) (key : GoString) (fallback : GoInt64) :
    Except error GoInt64 :=
  env.Parse environ key (env.parsers.Int64 intSize) fallback

/-- Go `Float64`: the float64 value if the key exists, otherwise the fallback. -/
def env.Float64 {F : Type} (ParseFloat : GoString → Nat → F × Option error)
    (environ : Environ) (key : GoString) (fallback : F) : Except error F :=
  env.Parse environ key (env.parsers.Float64 ParseFloat) fallback

/-- Go `Duration`: the duration value if the key exists, otherwise the fallback. -/
def env.Duration (ParseDuration : GoString → GoInt64 × Option error) (environ : Environ)
    (key : GoString) (fallback : GoInt64) : Except error GoInt64 :=
  env.Parse environ key (env.parsers.Duration ParseDuration) fallback

/-- Go `Bool`: the bool value if the key exists, otherwise the fallback. -/
def env.Bool (environ : Environ) (key : GoString) (fallback : GoBool) : Except error GoBool :=
  env.Parse environ key env.parsers.Bool fallback

/-- The `for _, word := range words` loop of `List`: `values` is the slice built so far;
a parser error returns the fallback at once. -/
def env.List.loop {T : Type} (parser : env.Parser T) (fallback : Slice T) :
    List GoString → Slice T → Slice T
  | [], values => values
  | word :: rest, values =>
    let word' := strings.TrimSpace word
    let (t, err) := parser word'
    match err with
    | some _ => fallback
    | none => env.List.loop parser fallback rest (values ++ [t])

/-- Go `List`: the fallback when the key does not exist; otherwise the value is split on
`","`, each word is trimmed and parsed, and the parsed values are returned, or the
fallback as soon as one word fails to parse. -/
def env.List {T : Type} (environ : Environ) (key : GoString) (parser : env.Parser T)
    (fallback : Slice T) : Slice T :=
  let (comaSeperated, exists_) := env.getEnv environ key
  if !exists_ then
    fallback
  else
    let values : Slice T := []
    let words := strings.Split comaSeperated ','
    env.List.loop parser fallback words values

/-! ## Environments used as concrete inputs, and the base-10 rendering -/

deriving instance DecidableEq for Except

/-- The environment with no variable set. -/
def emptyEnviron : Environ := fun _ => none

/-- The environment after `os.Setenv(key, value)` (the tests call `t.Setenv`). -/
def setenv (environ : Environ) (key value : GoString) : Environ :=
  fun k => if k = key then some value else environ k

/-- Go `strconv.FormatInt(i, 10)`: the base-10 rendering of `i`, a minus sign followed by
the digits of the magnitude when `i` is negative. -/
def strconv.FormatInt (i : Int) : GoString :=
  if i < 0 then "-" ++ Nat.repr i.natAbs else Nat.repr i.natAbs

/-- The values of a signed machine integer of width `w`. -/
def inIntRange (w : Nat) (n : Int) : Prop :=
  -(2 : Int) ^ (w - 1) ≤ n ∧ n < (2 : Int) ^ (w - 1)

/-- A string with no comma, no leading and no trailing white space. -/
def isListElement (x : GoString) : Prop :=
  ',' ∉ x.data ∧ (∀ c, x.data.head? = some c → unicode.IsSpace c = false) ∧
    (∀ c, x.data.getLast? = some c → unicode.IsSpace c = false)

/-! ## Standard library: the empty input of `strconv.ParseFloat` and `time.ParseDuration` -/

/-- Go `strconv.ParseFloat(s, bitSize)` as far as it is stated here: on the empty string
`readFloat` reads no digit and the result is zero with a syntax error; on any other input
the conversion is a floating-point computation, the parameter `atof`, over a type `F` of
`float64` values with zero `zero`. -/
def strconv.ParseFloat {F : Type} (zero : F) (atof : GoString → Nat → F × Option error)
    (s : GoString) (bitSize : Nat) : F × Option error :=
  if s = "" then (zero, some (strconv.syntaxError "ParseFloat" s))
  else atof s bitSize

/-- Go `time.ParseDuration(s)` up to its loop: the sign is consumed, what is left is zero
when it is "0" and an error when it is empty; the loop over the groups of a number and a
unit is the parameter `groups`, called with the original string, the sign and the rest.
In the error branch the original string is empty or a lone sign and `quote` escapes
nothing in it. -/
def time.ParseDuration (groups : GoString → Bool → GoString → GoInt64 × Option error)
    (s : GoString) : GoInt64 × Option error :=
  let orig := s
  let (neg, s1) : Bool × GoString :=
    match s.data with
    | '-' :: r => (true, ⟨r⟩)
    | '+' :: r => (false, ⟨r⟩)
    | _ => (false, s)
  if s1 = "0" then (0, none)
  else if s1 = "" then (0, some (error.New ("time: invalid duration " ++ "\"" ++ orig ++ "\"")))
  else groups orig neg s1

/-! ## Calls as steps of the process

Go's `Parser[T]` is a function value: it may be a closure that reads and writes the
process environment (`os.Setenv`) and the variables it captures.  To state what a call
does to that state, every accessor also has a `.call` form, a step from the state before
the call to the outcome and the state after it, in which the parser is such a closure
and the state is threaded through each call of it. -/

/-- The state a call can read or write: the process environment and the variables
captured by the parser closure, of some type `S`. -/
structure World (S : Type) where
  /-- The process environment. -/
  environ : Environ
  /-- The variables captured by the parser closure. -/
  captured : S

/-- Go `Parser[T]` as the closure it may be: applied to a string in a state, it returns its
result and the state it leaves. -/
abbrev env.Closure (S T : Type) := GoString → World S → (T × Option error) × World S

/-- A parser that is a pure function, taken as a closure: it leaves the state as it is.
The parsers of the catalogue are such functions. -/
def env.Closure.ofPure {S T : Type} (p : env.Parser T) : env.Closure S T :=
  fun v w => (p v, w)

/-- Go `os.LookupEnv(key)` as a step: it reads the environment and leaves the state as it
is. -/
def os.LookupEnv.call {S : Type} (key : GoString) (w : World S) :
    (GoString × GoBool) × World S :=
  (os.LookupEnv w.environ key, w)

/-- Go `getEnv` as a step. -/
def env.getEnv.call {S : Type} (key : GoString) (w : World S) :
    (GoString × GoBool) × World S :=
  let ((v, exists_), w1) := os.LookupEnv.call key w
  ((v, exists_), w1)

/-- Go `Parse` as a step: the parser closure runs in the state `getEnv` left; a panic
leaves the state of the moment it is raised. -/
def env.Parse.call {S T : Type} (key : GoString) (parser : env.Closure S T) (fallback : T)
    (w : World S) : Except error T × World S :=
  let ((v, exists_), w1) := env.getEnv.call key w
  if !exists_ then
    (Except.ok fallback, w1)
  else
    let (r, w2) := parser v w1
    (env.must r, w2)

/-- The loop of `List` as a step: each word is parsed in the state the previous parse
left. -/
def env.List.loop.call {S T : Type} (parser : env.Closure S T) (fallback : Slice T) :
    Slice GoString → Slice T → World S → Slice T × World S
  | [], values, w => (values, w)
  | word :: rest, values, w =>
    let word' := strings.TrimSpace word
    let ((t, err), w1) := parser word' w
    match err with
    | some _ => (fallback, w1)
    | none => env.List.loop.call parser fallback rest (values ++ [t]) w1

/-- Go `List` as a step. -/
def env.List.call {S T : Type} (key : GoString) (parser : env.Closure S T)
    (fallback : Slice T) (w : World S) : Slice T × World S :=
  let ((comaSeperated, exists_), w1) := env.getEnv.call key w
  if !exists_ then
    (fallback, w1)
  else
    let values : Slice T := []
    let words := strings.Split comaSeperated ','
    env.List.loop.call parser fallback words values w1

/-- Go `String` as a step. -/
def env.String.call {S : Type} (key fallback : GoString) (w : World S) :
    Except error GoString × World S :=
  env.Parse.call key (env.Closure.ofPure env.parsers.Identity) fallback w

/-- Go `Int` as a step. -/
def env.Int.call {S : Type} (intSize : Nat) (key : GoString) (fallback : GoInt)
    (w : World S) : Except error GoInt × World S :=
  env.Parse.call key (env.Closure.ofPure (env.parsers.Int intSize)) fallback w

/-- Go `Int64` as a step. -/
def env.Int64.call {S : Type} (intSize : Nat) (key : GoString) (fallback : GoInt64)
    (w : World S) : Except error GoInt64 × World S :=
  env.Parse.call key (env.Closure.ofPure (env.parsers.Int64 intSize)) fallback w

/-- Go `Float64` as a step. -/
def env.Float64.call {S F : Type} (ParseFloat : GoString → Nat → F × Option error)
    (key : GoString) (fallback : F) (w : World S) : Except error F × World S :=
  env.Parse.call key (env.Closure.ofPure (env.parsers.Float64 ParseFloat)) fallback w

/-- Go `Duration` as a step. -/
def env.Duration.call {S : Type} (ParseDuration : GoString → GoInt64 × Option error)
    (key : GoString) (fallback : GoInt64) (w : World S) : Except error GoInt64 × World S :=
  env.Parse.call key (env.Closure.ofPure (env.parsers.Duration ParseDuration)) fallback w

/-- Go `Bool` as a step. -/
def env.Bool.call {S : Type} (key : GoString) (fallback : GoBool) (w : World S) :
    Except error GoBool × World S :=
  env.Parse.call key (env.Closure.ofPure env.parsers.Bool) fallback w

/-- A closure that writes neither the environment nor its captured variables: it leaves
every state as it found it (it may read both). -/
def env.Closure.writesNothing {S T : Type} (parser : env.Closure S T) : Prop :=
  ∀ (v : GoString) (w : World S), (parser v w).2 = w

/-- A call that leaves the state as it found it and that, made a second time in the
state the first call left, has the outcome of the first call. -/
def isIdempotentCall {S α : Type} (call : World S → α × World S) : Prop :=
  ∀ w : World S, (call w).2 = w ∧ (call (call w).2).1 = (call w).1

/-- A parser closure that writes the environment: it returns its argument and sets the
variable `K` to the argument followed by "!". -/
def writingParser : env.Closure Unit GoString :=
  fun v w => ((v, none), { w with environ := setenv w.environ "K" (v ++ "!") })

/-- A parser closure that reads the environment and writes nothing: it returns its
argument followed by the value of the variable `SUFFIX`, if that is set. -/
def readingParser : env.Closure Unit GoString :=
  fun v w => ((v ++ (w.environ "SUFFIX").getD "", none), w)

/-- A parser closure that keeps a counter in a captured variable: it returns the number
of calls made before and adds one to it; it does not touch the environment. -/
def countingParser : env.Closure Nat GoInt :=
  fun _ w => ((Int.ofNat w.captured, none), { w with captured := w.captured + 1 })

/-! ## Notions of the claims: letter case and integer literals -/

/-- Equality of two strings up to letter case. -/
def equalFold (s t : GoString) : Bool :=
  s.data.map Char.toLower == t.data.map Char.toLower

/-- The value of a string of decimal digits read after the value `n`; `none` when a
character is not a decimal digit. -/
def decimalValue : List Char → Nat → Option Nat
  | [], n => some n
  | c :: cs, n =>
    if 48 ≤ c.toNat ∧ c.toNat ≤ 57 then decimalValue cs (n * 10 + (c.toNat - 48))
    else none

/-- The integer denoted by a well-formed base-10 integer literal, an optional sign
followed by one or more decimal digits; `none` for any other string. -/
def intLiteral (s : GoString) : Option Int :=
  match s.data with
  | '+' :: ds => if ds = [] then none else (decimalValue ds 0).map Int.ofNat
  | '-' :: ds => if ds = [] then none else (decimalValue ds 0).map (fun v => -Int.ofNat v)
  | ds => if ds = [] then none else (decimalValue ds 0).map Int.ofNat

/-! ## Lookup and `Parse` -/

theorem getEnv_absent (environ : Environ) (key : GoString) (h : environ key = none) :
    env.getEnv environ key = ("", false) := by
  simp [env.getEnv, os.LookupEnv, h]

theorem getEnv_present (environ : Environ) (key v : GoString) (h : environ key = some v) :
    env.getEnv environ key = (v, true) := by
  simp [env.getEnv, os.LookupEnv, h]

theorem Parse_absent {T : Type} (environ : Environ) (key : GoString) (p : env.Parser T)
    (fb : T) (h : environ key = none) : env.Parse environ key p fb = Except.ok fb := by
  simp [env.Parse, getEnv_absent environ key h]

theorem Parse_present {T : Type} (environ : Environ) (key v : GoString) (p : env.Parser T)
    (fb : T) (h : environ key = some v) : env.Parse environ key p fb = env.must (p v) := by
  simp [env.Parse, getEnv_present environ key v h]

theorem must_error_iff {T : Type} (r : T × Option error) (err : error) :
    env.must r = Except.error err ↔ r.2 = some err := by
  unfold env.must
  cases h : r.2 <;> simp

theorem must_ok_iff {T : Type} (r : T × Option error) (x : T) :
    env.must r = Except.ok x ↔ r.2 = none ∧ r.1 = x := by
  unfold env.must
  cases h : r.2 <;> simp

theorem ParseInt_invalid_number_format (w : Nat) :
    strconv.ParseInt w "INVALID NUMBER FORMAT" 0 =
      (0, some (strconv.syntaxError "ParseInt" "INVALID NUMBER FORMAT")) := rfl

theorem Atoi_invalid_number_format (w : Nat) :
    (strconv.Atoi w "INVALID NUMBER FORMAT").2 =
      some (strconv.syntaxError "Atoi" "INVALID NUMBER FORMAT") := by
  have hlen : ("INVALID NUMBER FORMAT" : String).utf8ByteSize = 21 := by decide
  unfold strconv.Atoi
  simp only [hlen]
  rw [if_neg (by omega), ParseInt_invalid_number_format]
  rfl

/-- C1. For a key that is not present, each scalar accessor (String, Int, Int64, Float64,
Duration, Bool, and Parse with any parser) returns exactly the supplied fallback as a
normal return, for every fallback and whatever the parser is. -/
theorem absent_key_returns_fallback (environ : Environ) (key : GoString)
    (habsent : environ key = none) :
    (∀ fb : GoString, env.String environ key fb = Except.ok fb) ∧
    (∀ (intSize : Nat) (fb : GoInt), env.Int intSize environ key fb = Except.ok fb) ∧
    (∀ (intSize : Nat) (fb : GoInt64), env.Int64 intSize environ key fb = Except.ok fb) ∧
    (∀ (F : Type) (ParseFloat : GoString → Nat → F × Option error) (fb : F),
      env.Float64 ParseFloat environ key fb = Except.ok fb) ∧
    (∀ (ParseDuration : GoString → GoInt64 × Option error) (fb : GoInt64),
      env.Duration ParseDuration environ key fb = Except.ok fb) ∧
    (∀ fb : GoBool, env.Bool environ key fb = Except.ok fb) ∧
    (∀ (T : Type) (p : env.Parser T) (fb : T), env.Parse environ key p fb = Except.ok fb) := by
  refine ⟨?_, ?_, ?_, ?_, ?_, ?_, ?_⟩
  · intro fb; exact Parse_absent environ key _ fb habsent
  · intro w fb; exact Parse_absent environ key _ fb habsent
  · intro w fb; exact Parse_absent environ key _ fb habsent
  · intro F pf fb; exact Parse_absent environ key _ fb habsent
  · intro pd fb; exact Parse_absent environ key _ fb habsent
  · intro fb; exact Parse_absent environ key _ fb habsent
  · intro T p fb; exact Parse_absent environ key p fb habsent

/-- C1, at the input of `TestInt`: with `TESTING_ENV_INT` unset and fallback 1, `Int`
returns 1. -/
theorem absent_key_returns_fallback_witness :
    emptyEnviron "TESTING_ENV_INT" = none ∧
      env.Int 64 emptyEnviron "TESTING_ENV_INT" 1 = Except.ok 1 :=
  ⟨rfl, (absent_key_returns_fallback emptyEnviron "TESTING_ENV_INT" rfl).2.1 64 1⟩

/-- C2. Parse panics with `err` exactly when the key is present and the parser returns
the error `err` on the raw value; a panic is neither a return of the fallback nor of any
other value.  `Int` on a key whose value is "INVALID NUMBER FORMAT" panics, with the
syntax error of `Atoi`, for every width of `int`. -/
theorem Parse_panics_iff :
    (∀ (T : Type) (environ : Environ) (key : GoString) (p : env.Parser T) (fb : T)
        (err : error),
      env.Parse environ key p fb = Except.error err ↔
        ∃ v, env.getEnv environ key = (v, true) ∧ (p v).2 = some err) ∧
    (∀ (intSize : Nat) (fb : GoInt),
      env.Int intSize (setenv emptyEnviron "TESTING_ENV_INT" "INVALID NUMBER FORMAT")
          "TESTING_ENV_INT" fb =
        Except.error (strconv.syntaxError "Atoi" "INVALID NUMBER FORMAT")) := by
  constructor
  · intro T environ key p fb err
    cases h : environ key with
    | none =>
      rw [Parse_absent environ key p fb h, getEnv_absent environ key h]
      simp
    | some v =>
      rw [Parse_present environ key v p fb h, getEnv_present environ key v h, must_error_iff]
      simp
  · intro intSize fb
    rw [env.Int, Parse_present _ _ "INVALID NUMBER FORMAT" _ _ (by simp [setenv])]
    rw [must_error_iff]
    exact Atoi_invalid_number_format intSize

/-- C3. For a key present with raw value `v`, if the parser succeeds on `v` with value
`x` then Parse returns `x`, and the result is the same for every fallback. -/
theorem Parse_present_success {T : Type} (environ : Environ) (key v : GoString)
    (p : env.Parser T) (x : T) (fb : T) (hpresent : environ key = some v)
    (hparse : p v = (x, none)) :
    env.Parse environ key p fb = Except.ok x ∧
      ∀ fb' : T, env.Parse environ key p fb' = env.Parse environ key p fb := by
  constructor
  · rw [Parse_present environ key v p fb hpresent, must_ok_iff]
    simp [hparse]
  · intro fb'
    rw [Parse_present environ key v p fb hpresent, Parse_present environ key v p fb' hpresent]

/-- C3, at the input of `TestInt`: value "2" and fallback 1 give 2. -/
theorem Parse_present_success_witness :
    setenv emptyEnviron "TESTING_ENV_INT" "2" "TESTING_ENV_INT" = some "2" ∧
      env.parsers.Int 64 "2" = (2, none) ∧
      (env.Parse (setenv emptyEnviron "TESTING_ENV_INT" "2") "TESTING_ENV_INT"
          (env.parsers.Int 64) 1 = Except.ok 2 ∧
        ∀ fb' : GoInt,
          env.Parse (setenv emptyEnviron "TESTING_ENV_INT" "2") "TESTING_ENV_INT"
              (env.parsers.Int 64) fb' =
            env.Parse (setenv emptyEnviron "TESTING_ENV_INT" "2") "TESTING_ENV_INT"
              (env.parsers.Int 64) 1) :=
  ⟨by decide, by decide,
    Parse_present_success (setenv emptyEnviron "TESTING_ENV_INT" "2") "TESTING_ENV_INT" "2"
      (env.parsers.Int 64) 2 1 (by decide) (by decide)⟩

/-! ## `List` -/

theorem List_absent {T : Type} (environ : Environ) (key : GoString) (p : env.Parser T)
    (fb : Slice T) (h : environ key = none) : env.List environ key p fb = fb := by
  simp [env.List, getEnv_absent environ key h]

theorem List_present {T : Type} (environ : Environ) (key v : GoString) (p : env.Parser T)
    (fb : Slice T) (h : environ key = some v) :
    env.List environ key p fb = env.List.loop p fb (strings.Split v ',') [] := by
  simp [env.List, getEnv_present environ key v h]

theorem List_loop_cons_error {T : Type} (p : env.Parser T) (fb : Slice T) (word : GoString)
    (rest : List GoString) (values : Slice T) (h : (p (strings.TrimSpace word)).2 ≠ none) :
    env.List.loop p fb (word :: rest) values = fb := by
  unfold env.List.loop
  cases hr : (p (strings.TrimSpace word)).2 with
  | none => exact absurd hr h
  | some e => simp [hr]

theorem List_loop_cons_ok {T : Type} (p : env.Parser T) (fb : Slice T) (word : GoString)
    (rest : List GoString) (values : Slice T) (h : (p (strings.TrimSpace word)).2 = none) :
    env.List.loop p fb (word :: rest) values =
      env.List.loop p fb rest (values ++ [(p (strings.TrimSpace word)).1]) := by
  conv_lhs => unfold env.List.loop
  simp [h]

theorem List_loop_fail {T : Type} (p : env.Parser T) (fb : Slice T) :
    ∀ (words : List GoString) (values : Slice T) (w : GoString), w ∈ words →
      (p (strings.TrimSpace w)).2 ≠ none → env.List.loop p fb words values = fb := by
  intro words
  induction words with
  | nil => intro values w hw; simp at hw
  | cons word rest ih =>
    intro values w hw hfail
    by_cases hword : (p (strings.TrimSpace word)).2 = none
    · rw [List_loop_cons_ok p fb word rest values hword]
      rcases List.mem_cons.mp hw with h | h
      · subst h; exact absurd hword hfail
      · exact ih _ w h hfail
    · exact List_loop_cons_error p fb word rest values hword

theorem List_loop_ok {T : Type} (p : env.Parser T) (fb : Slice T) :
    ∀ (words : List GoString) (values : Slice T),
      (∀ w ∈ words, (p (strings.TrimSpace w)).2 = none) →
      env.List.loop p fb words values =
        values ++ words.map (fun w => (p (strings.TrimSpace w)).1) := by
  intro words
  induction words with
  | nil => intro values _; simp [env.List.loop]
  | cons word rest ih =>
    intro values hall
    rw [List_loop_cons_ok p fb word rest values (hall word (List.mem_cons_self _ _)),
      ih _ (fun w hw => hall w (List.mem_cons_of_mem _ hw))]
    simp

theorem Split_scan_length (sep : Char) :
    ∀ (cs cur : List Char), (strings.Split.scan sep cur cs).length = cs.count sep + 1 := by
  intro cs
  induction cs with
  | nil => intro cur; simp [strings.Split.scan]
  | cons c cs ih =>
    intro cur
    unfold strings.Split.scan
    by_cases h : c = sep
    · subst h; simp [ih]
    · have h' : (c == sep) = false := by simpa using h
      simp [h, ih, List.count_cons, h']

theorem Split_length (s : GoString) (sep : Char) :
    (strings.Split s sep).length = s.data.count sep + 1 :=
  Split_scan_length sep s.data []

theorem List_fallback_of_failed_segment {T : Type} (environ : Environ)
    (key v : GoString) (p : env.Parser T) (fb : Slice T) (w : GoString)
    (hpresent : environ key = some v) (hw : w ∈ strings.Split v ',')
    (hfail : (p (strings.TrimSpace w)).2 ≠ none) :
    env.List environ key p fb = fb := by
  rw [List_present environ key v p fb hpresent]
  exact List_loop_fail p fb _ [] w hw hfail

/-- C4. For a key that is present, if the parser fails on any one of the comma-separated,
whitespace-trimmed segments of the value, at whatever position, List returns exactly the
fallback slice. -/
theorem List_parse_failure_returns_fallback {T : Type} (environ : Environ)
    (key v : GoString) (p : env.Parser T) (fb : Slice T) (w : GoString)
    (hpresent : environ key = some v) (hw : w ∈ strings.Split v ',')
    (hfail : (p (strings.TrimSpace w)).2 ≠ none) :
    env.List environ key p fb = fb := by
  rw [List_present environ key v p fb hpresent]
  exact List_loop_fail p fb _ [] w hw hfail

/-- C4, at the input of `TestList_ParserFailed`: value "1, X, 3", the Int64 parser and
fallback [1,2,3] give [1,2,3]. -/
theorem List_parse_failure_returns_fallback_witness :
    setenv emptyEnviron "TESTING_ENV_STRING" "1, X, 3" "TESTING_ENV_STRING" = some "1, X, 3" ∧
      " X" ∈ strings.Split "1, X, 3" ',' ∧
      (env.parsers.Int64 64 (strings.TrimSpace " X")).2 ≠ none ∧
      env.List (setenv emptyEnviron "TESTING_ENV_STRING" "1, X, 3") "TESTING_ENV_STRING"
        (env.parsers.Int64 64) [1, 2, 3] = [1, 2, 3] :=
  ⟨by decide, by decide, by decide,
    List_parse_failure_returns_fallback (setenv emptyEnviron "TESTING_ENV_STRING" "1, X, 3")
      "TESTING_ENV_STRING" "1, X, 3" (env.parsers.Int64 64) [1, 2, 3] " X" (by decide)
      (by decide) (by decide)⟩

/-- C5. For a key present with value `v` and a parser that succeeds on every trimmed
segment of `v`, List returns the parser applied to each trimmed segment of the split of
`v` on commas, in split order; the result has (number of commas in `v`) + 1 elements and
does not depend on the fallback. -/
theorem List_all_parsed {T : Type} (environ : Environ) (key v : GoString)
    (p : env.Parser T) (fb : Slice T) (hpresent : environ key = some v)
    (hok : ∀ w ∈ strings.Split v ',', (p (strings.TrimSpace w)).2 = none) :
    env.List environ key p fb =
        (strings.Split v ',').map (fun w => (p (strings.TrimSpace w)).1) ∧
      (env.List environ key p fb).length = v.data.count ',' + 1 ∧
      ∀ fb' : Slice T, env.List environ key p fb' = env.List environ key p fb := by
  have h : ∀ fb' : Slice T, env.List environ key p fb' =
      (strings.Split v ',').map (fun w => (p (strings.TrimSpace w)).1) := by
    intro fb'
    rw [List_present environ key v p fb' hpresent, List_loop_ok p fb' _ [] hok]
    simp
  refine ⟨h fb, ?_, fun fb' => (h fb').trans (h fb).symm⟩
  rw [h fb, List.length_map, Split_length]

/-- C5, with a repeated element: value "7, 7 ,8" and the Int64 parser give [7, 7, 8],
not the fallback. -/
theorem List_all_parsed_witness :
    setenv emptyEnviron "K" "7, 7 ,8" "K" = some "7, 7 ,8" ∧
      (∀ w ∈ strings.Split "7, 7 ,8" ',', (env.parsers.Int64 64 (strings.TrimSpace w)).2 = none) ∧
      env.List (setenv emptyEnviron "K" "7, 7 ,8") "K" (env.parsers.Int64 64) [] = [7, 7, 8] :=
  ⟨by decide, by decide,
    ((List_all_parsed (setenv emptyEnviron "K" "7, 7 ,8") "K" "7, 7 ,8" (env.parsers.Int64 64) []
      (by decide) (by decide)).1).trans (by decide)⟩

/-- C6. For a key that is not present, List returns the fallback slice unchanged, for
every parser: the result does not depend on the parser, which is never consulted. -/
theorem List_absent_returns_fallback {T : Type} (environ : Environ) (key : GoString)
    (habsent : environ key = none) :
    ∀ (p : env.Parser T) (fb : Slice T), env.List environ key p fb = fb :=
  fun p fb => List_absent environ key p fb habsent

/-- C6, at the input of `TestList_String`: with the key unset, fallback ["A","B","C"] is
returned. -/
theorem List_absent_returns_fallback_witness :
    emptyEnviron "TESTING_ENV_STRING" = none ∧
      env.List emptyEnviron "TESTING_ENV_STRING" env.parsers.Identity ["A", "B", "C"] =
        ["A", "B", "C"] :=
  ⟨rfl, List_absent_returns_fallback emptyEnviron "TESTING_ENV_STRING" rfl
    env.parsers.Identity ["A", "B", "C"]⟩

/-- C7. String never panics: it returns the environment's value for the key verbatim when
the key is present, and the fallback otherwise. -/
theorem String_returns_value_or_fallback (environ : Environ) (key fb : GoString) :
    env.String environ key fb =
        Except.ok (match environ key with
          | some v => v
          | none => fb) ∧
      ∀ err : error, env.String environ key fb ≠ Except.error err := by
  have h : env.String environ key fb =
      Except.ok (match environ key with
        | some v => v
        | none => fb) := by
    cases hk : environ key with
    | none => exact Parse_absent environ key _ fb hk
    | some v =>
      rw [env.String, Parse_present environ key v _ fb hk]
      rfl
  refine ⟨h, ?_⟩
  intro err
  rw [h]
  simp

/-! ## The base-10 rendering -/

theorem toDigitsCore_append (b : Nat) :
    ∀ (fuel n : Nat) (ds : List Char),
      Nat.toDigitsCore b fuel n ds = Nat.toDigitsCore b fuel n [] ++ ds := by
  intro fuel
  induction fuel with
  | zero => intro n ds; simp [Nat.toDigitsCore]
  | succ k ih =>
    intro n ds
    simp only [Nat.toDigitsCore]
    by_cases h : n / b = 0
    · simp [h]
    · simp only [h, if_false]
      rw [ih (n / b) (Nat.digitChar (n % b) :: ds), ih (n / b) [Nat.digitChar (n % b)]]
      simp

theorem toDigitsCore_fuel :
    ∀ (f1 f2 n : Nat), n < f1 → n < f2 →
      Nat.toDigitsCore 10 f1 n [] = Nat.toDigitsCore 10 f2 n [] := by
  intro f1
  induction f1 with
  | zero => intro f2 n h; omega
  | succ k ih =>
    intro f2 n h1 h2
    cases f2 with
    | zero => omega
    | succ m =>
      simp only [Nat.toDigitsCore]
      by_cases h : n / 10 = 0
      · simp [h]
      · simp only [h, if_false]
        rw [toDigitsCore_append 10 k, toDigitsCore_append 10 m,
          ih m (n / 10) (by omega) (by omega)]

theorem toDigits_small (n : Nat) (h : n < 10) : Nat.toDigits 10 n = [Nat.digitChar n] := by
  have h0 : n / 10 = 0 := by omega
  have h1 : n % 10 = n := by omega
  simp [Nat.toDigits, Nat.toDigitsCore, h0, h1]

theorem toDigits_large (n : Nat) (h : 10 ≤ n) :
    Nat.toDigits 10 n = Nat.toDigits 10 (n / 10) ++ [Nat.digitChar (n % 10)] := by
  have h0 : n / 10 ≠ 0 := by omega
  have h1 : Nat.toDigits 10 n = Nat.toDigitsCore 10 n (n / 10) [Nat.digitChar (n % 10)] := by
    simp [Nat.toDigits, Nat.toDigitsCore, h0]
  rw [h1, toDigitsCore_append 10 n,
    toDigitsCore_fuel n (n / 10 + 1) (n / 10) (by omega) (by omega)]
  rfl

theorem digit_digitChar (d : Nat) (h : d < 10) :
    strconv.ParseUint.digit (Nat.digitChar d) = some d := by
  interval_cases d <;> decide

theorem digitChar_toNat (d : Nat) (h : d < 10) : (Nat.digitChar d).toNat = 48 + d := by
  interval_cases d <;> decide

theorem toDigits_ne_nil (n : Nat) : Nat.toDigits 10 n ≠ [] := by
  by_cases h : n < 10
  · simp [toDigits_small n h]
  · simp [toDigits_large n (by omega)]

theorem toDigits_chars (n : Nat) :
    ∀ c ∈ Nat.toDigits 10 n, ∃ d, d < 10 ∧ c = Nat.digitChar d := by
  induction n using Nat.strong_induction_on with
  | _ n ih =>
    intro c hc
    by_cases h : n < 10
    · rw [toDigits_small n h] at hc
      exact ⟨n, h, by simpa using hc⟩
    · rw [toDigits_large n (by omega)] at hc
      rcases List.mem_append.mp hc with hc | hc
      · exact ih (n / 10) (by omega) c hc
      · exact ⟨n % 10, by omega, by simpa using hc⟩

theorem toDigits_length_bound (n : Nat) : n < 10 ^ (Nat.toDigits 10 n).length := by
  induction n using Nat.strong_induction_on with
  | _ n ih =>
    by_cases h : n < 10
    · rw [toDigits_small n h]
      simpa using h
    · rw [toDigits_large n (by omega)]
      have := ih (n / 10) (by omega)
      simp only [List.length_append, List.length_singleton, pow_succ]
      omega

/-! ## `strconv.ParseUint` and `strconv.ParseInt` on a rendering -/

theorem ParseUint_loop_append (s0 : GoString) (cutoff maxVal : Nat) :
    ∀ (A B : List Char) (acc n' : Nat),
      strconv.ParseUint.loop s0 cutoff maxVal A acc = (n', none) →
      strconv.ParseUint.loop s0 cutoff maxVal (A ++ B) acc =
        strconv.ParseUint.loop s0 cutoff maxVal B n' := by
  intro A
  induction A with
  | nil =>
    intro B acc n' h
    simp only [strconv.ParseUint.loop, Prod.mk.injEq, and_true] at h
    simp [h]
  | cons c A ih =>
    intro B acc n' h
    simp only [List.cons_append, strconv.ParseUint.loop] at h ⊢
    cases hd : strconv.ParseUint.digit c with
    | none => simp [hd] at h
    | some d =>
      simp only [hd] at h ⊢
      by_cases h1 : d ≥ 10
      · rw [if_pos h1] at h
        simp at h
      · rw [if_neg h1] at h ⊢
        by_cases h2 : acc ≥ cutoff
        · rw [if_pos h2] at h
          simp at h
        · rw [if_neg h2] at h ⊢
          by_cases h3 : (acc * 10 % 2 ^ 64 + d) % 2 ^ 64 < acc * 10 % 2 ^ 64 ∨
              (acc * 10 % 2 ^ 64 + d) % 2 ^ 64 > maxVal
          · rw [if_pos h3] at h
            simp at h
          · rw [if_neg h3] at h ⊢
            exact ih B _ n' h

theorem ParseUint_loop_digit (s0 : GoString) (maxVal a d : Nat) (hd : d < 10)
    (hmax : maxVal < 2 ^ 64) (hle : a * 10 + d ≤ maxVal) :
    strconv.ParseUint.loop s0 ((2 ^ 64 - 1) / 10 + 1) maxVal [Nat.digitChar d] a =
      (a * 10 + d, none) := by
  have e1 : a * 10 % 2 ^ 64 = a * 10 := Nat.mod_eq_of_lt (by omega)
  have e2 : (a * 10 + d) % 2 ^ 64 = a * 10 + d := Nat.mod_eq_of_lt (by omega)
  have h1 : ¬ d ≥ 10 := by omega
  have h2 : ¬ a ≥ (2 ^ 64 - 1) / 10 + 1 := by
    norm_num at hmax ⊢
    omega
  have h3 : ¬ (a * 10 + d < a * 10 ∨ a * 10 + d > maxVal) := by omega
  simp only [strconv.ParseUint.loop, digit_digitChar d hd, h1, h2, if_false, e1, e2, h3]

theorem ParseUint_loop_toDigits (s0 : GoString) (maxVal : Nat) (hmax : maxVal < 2 ^ 64) :
    ∀ n : Nat, n ≤ maxVal →
      strconv.ParseUint.loop s0 ((2 ^ 64 - 1) / 10 + 1) maxVal (Nat.toDigits 10 n) 0 =
        (n, none) := by
  intro n
  induction n using Nat.strong_induction_on with
  | _ n ih =>
    intro hn
    by_cases h : n < 10
    · rw [toDigits_small n h]
      have := ParseUint_loop_digit s0 maxVal 0 n h hmax (by omega)
      simpa using this
    · rw [toDigits_large n (by omega),
        ParseUint_loop_append s0 _ maxVal _ _ 0 (n / 10) (ih (n / 10) (by omega) (by omega)),
        ParseUint_loop_digit s0 maxVal (n / 10) (n % 10) (by omega) hmax (by omega)]
      congr 1
      omega

theorem repr_data (n : Nat) : (Nat.repr n).data = Nat.toDigits 10 n := rfl

theorem repr_ne_empty (n : Nat) : Nat.repr n ≠ "" := by
  intro h
  have := congrArg String.data h
  rw [repr_data] at this
  exact toDigits_ne_nil n this

theorem ParseUint_repr (intSize : Nat) (hw : intSize = 32 ∨ intSize = 64) (bitSize : Nat)
    (hb : bitSize = 0 ∨ bitSize = 64) (n : Nat)
    (hn : n < 2 ^ (if bitSize = 0 then intSize else bitSize)) :
    strconv.ParseUint intSize (Nat.repr n) bitSize = (n, none) := by
  unfold strconv.ParseUint
  rw [if_neg (repr_ne_empty n), if_neg (by omega), repr_data]
  apply ParseUint_loop_toDigits
  · exact Nat.mod_lt _ (by norm_num)
  · rcases hw with rfl | rfl <;> rcases hb with rfl | rfl <;> norm_num at hn ⊢ <;> omega

theorem ParseInt_of_unsigned (intSize : Nat) (s : GoString) (bitSize un : Nat)
    (hs : s ≠ "") (hplus : s.data.head? ≠ some '+') (hminus : s.data.head? ≠ some '-')
    (hu : strconv.ParseUint intSize s bitSize = (un, none)) :
    strconv.ParseInt intSize s bitSize = strconv.ParseInt.range intSize s bitSize false un := by
  unfold strconv.ParseInt
  rw [if_neg hs]
  split
  rename_i x neg r hr
  split at hr
  · rename_i r' hr'
    simp [hr'] at hplus
  · rename_i r' hr'
    simp [hr'] at hminus
  · simp only [Prod.mk.injEq] at hr
    obtain ⟨rfl, rfl⟩ := hr
    simp only [hu]

theorem ParseInt_of_minus (intSize : Nat) (r : List Char) (bitSize un : Nat)
    (hu : strconv.ParseUint intSize ⟨r⟩ bitSize = (un, none)) :
    strconv.ParseInt intSize ⟨'-' :: r⟩ bitSize =
      strconv.ParseInt.range intSize ⟨'-' :: r⟩ bitSize true un := by
  unfold strconv.ParseInt
  rw [if_neg (by simp [String.ext_iff])]
  simp only [hu]

theorem wrapInt_of_inIntRange (w : Nat) (hw : w = 32 ∨ w = 64) (x : Int)
    (hx : inIntRange w x) : wrapInt w x = x := by
  unfold inIntRange at hx
  unfold wrapInt
  rcases hw with rfl | rfl <;> norm_num at hx ⊢ <;> omega

theorem ParseInt_range_nonneg (intSize : Nat) (hw : intSize = 32 ∨ intSize = 64)
    (bitSize : Nat) (hb : bitSize = 0 ∨ bitSize = 64) (s0 : GoString) (n : Nat)
    (hn : inIntRange (if bitSize = 0 then intSize else bitSize) (n : Int)) :
    strconv.ParseInt.range intSize s0 bitSize false n = ((n : Int), none) := by
  unfold inIntRange at hn
  unfold strconv.ParseInt.range wrapInt
  simp only [Bool.not_false, true_and, Bool.false_eq_true, false_and, if_false]
  rcases hw with rfl | rfl <;> rcases hb with rfl | rfl <;>
    simp only [if_true, if_false, OfNat.ofNat_ne_zero] at hn ⊢ <;>
    norm_num at hn ⊢ <;>
    (split_ifs with hc <;> first | (exfalso; omega) | (refine Prod.ext ?_ rfl; show (_ : Int) = _; omega))

theorem ParseInt_range_neg (intSize : Nat) (hw : intSize = 32 ∨ intSize = 64)
    (bitSize : Nat) (hb : bitSize = 0 ∨ bitSize = 64) (s0 : GoString) (n : Nat)
    (hn : inIntRange (if bitSize = 0 then intSize else bitSize) (-(n : Int))) :
    strconv.ParseInt.range intSize s0 bitSize true n = (-(n : Int), none) := by
  unfold inIntRange at hn
  unfold strconv.ParseInt.range wrapInt
  simp only [Bool.not_true, Bool.false_eq_true, false_and, if_false, true_and, if_true]
  rcases hw with rfl | rfl <;> rcases hb with rfl | rfl <;>
    simp only [if_true, if_false, OfNat.ofNat_ne_zero] at hn ⊢ <;>
    norm_num at hn ⊢ <;>
    (split_ifs with hc <;> first | (exfalso; omega) | (refine Prod.ext ?_ rfl; show (_ : Int) = _; omega))

theorem toDigits_head (n : Nat) :
    (Nat.toDigits 10 n).head? ≠ some '+' ∧ (Nat.toDigits 10 n).head? ≠ some '-' := by
  cases hcs : Nat.toDigits 10 n with
  | nil => simp
  | cons c cs =>
    obtain ⟨d, hd, hc⟩ := toDigits_chars n c (by simp [hcs])
    subst hc
    simp only [List.head?_cons, ne_eq, Option.some.injEq]
    interval_cases d <;> decide

theorem FormatInt_nonneg (i : Int) (h : 0 ≤ i) : strconv.FormatInt i = Nat.repr i.natAbs := by
  unfold strconv.FormatInt
  rw [if_neg (by omega)]

theorem FormatInt_neg (i : Int) (h : i < 0) :
    strconv.FormatInt i = ⟨'-' :: Nat.toDigits 10 i.natAbs⟩ := by
  unfold strconv.FormatInt
  rw [if_pos h]
  rfl

/-- Reading back with `strconv.ParseInt`: it returns, with a nil error, every integer of the
target width from its base-10 rendering: `bitSize` 64, or the width of `int` for `bitSize` 0. -/
theorem ParseInt_FormatInt (intSize : Nat) (hw : intSize = 32 ∨ intSize = 64)
    (bitSize : Nat) (hb : bitSize = 0 ∨ bitSize = 64) (i : Int)
    (hi : inIntRange (if bitSize = 0 then intSize else bitSize) i) :
    strconv.ParseInt intSize (strconv.FormatInt i) bitSize = (i, none) := by
  have hbound : i.natAbs < 2 ^ (if bitSize = 0 then intSize else bitSize) := by
    unfold inIntRange at hi
    rcases hw with rfl | rfl <;> rcases hb with rfl | rfl <;> norm_num at hi ⊢ <;> omega
  by_cases hneg : i < 0
  · rw [FormatInt_neg i hneg,
      ParseInt_of_minus intSize _ bitSize i.natAbs
        (ParseUint_repr intSize hw bitSize hb i.natAbs hbound),
      ParseInt_range_neg intSize hw bitSize hb _ i.natAbs (by
        have : -((i.natAbs : Nat) : Int) = i := by omega
        rw [this]; exact hi)]
    congr 1
    omega
  · rw [FormatInt_nonneg i (by omega),
      ParseInt_of_unsigned intSize _ bitSize i.natAbs (repr_ne_empty _)
        (toDigits_head i.natAbs).1 (toDigits_head i.natAbs).2
        (ParseUint_repr intSize hw bitSize hb i.natAbs hbound),
      ParseInt_range_nonneg intSize hw bitSize hb _ i.natAbs (by
        have : ((i.natAbs : Nat) : Int) = i := by omega
        rw [this]; exact hi)]
    congr 1
    omega

/-! ## `strconv.Atoi` on a rendering -/

theorem utf8ByteSize_go_length : ∀ cs : List Char, cs.length ≤ String.utf8ByteSize.go cs := by
  intro cs
  induction cs with
  | nil => simp [String.utf8ByteSize.go]
  | cons c cs ih =>
    have := Char.utf8Size_pos c
    simp only [String.utf8ByteSize.go, List.length_cons]
    omega

theorem length_le_utf8ByteSize (s : String) : s.data.length ≤ s.utf8ByteSize := by
  cases s with
  | mk cs => exact utf8ByteSize_go_length cs

theorem Atoi_loop_append (w : Nat) :
    ∀ (A B : List Char) (acc n' : Int),
      strconv.Atoi.loop w A acc = some n' →
      strconv.Atoi.loop w (A ++ B) acc = strconv.Atoi.loop w B n' := by
  intro A
  induction A with
  | nil =>
    intro B acc n' h
    simp only [strconv.Atoi.loop, Option.some.injEq] at h
    simp [h]
  | cons c A ih =>
    intro B acc n' h
    simp only [List.cons_append, strconv.Atoi.loop] at h ⊢
    by_cases h1 : 128 ≤ c.toNat
    · rw [if_pos h1] at h
      simp at h
    · rw [if_neg h1] at h ⊢
      by_cases h2 : (c.toNat + 256 - 48) % 256 > 9
      · rw [if_pos h2] at h
        simp at h
      · rw [if_neg h2] at h ⊢
        exact ih B _ n' h

theorem Atoi_loop_digit (w : Nat) (hw : w = 32 ∨ w = 64) (a : Int) (d : Nat) (hd : d < 10)
    (ha : 0 ≤ a) (hle : a * 10 + (d : Int) < 2 ^ (w - 1)) :
    strconv.Atoi.loop w [Nat.digitChar d] a = some (a * 10 + (d : Int)) := by
  have hc := digitChar_toNat d hd
  have h1 : ¬ 128 ≤ (Nat.digitChar d).toNat := by omega
  have h2 : ((Nat.digitChar d).toNat + 256 - 48) % 256 = d := by omega
  have h3 : ¬ d > 9 := by omega
  have e1 : wrapInt w (a * 10) = a * 10 := by
    apply wrapInt_of_inIntRange w hw
    unfold inIntRange
    constructor
    · have : (0 : Int) < 2 ^ (w - 1) := by positivity
      omega
    · omega
  have e2 : wrapInt w (a * 10 + (d : Int)) = a * 10 + (d : Int) := by
    apply wrapInt_of_inIntRange w hw
    unfold inIntRange
    constructor
    · have : (0 : Int) < 2 ^ (w - 1) := by positivity
      omega
    · exact hle
  simp only [strconv.Atoi.loop, h1, h2, h3, if_false, e1, e2]

theorem Atoi_loop_toDigits (w : Nat) (hw : w = 32 ∨ w = 64) :
    ∀ n : Nat, (n : Int) < 2 ^ (w - 1) →
      strconv.Atoi.loop w (Nat.toDigits 10 n) 0 = some (n : Int) := by
  intro n
  induction n using Nat.strong_induction_on with
  | _ n ih =>
    intro hn
    by_cases h : n < 10
    · rw [toDigits_small n h]
      have := Atoi_loop_digit w hw 0 n h (le_refl _) (by simpa using hn)
      simpa using this
    · have hdiv : ((n / 10 : Nat) : Int) < 2 ^ (w - 1) := by
        have : ((n / 10 : Nat) : Int) ≤ (n : Int) := by omega
        omega
      have hsplit : ((n / 10 : Nat) : Int) * 10 + ((n % 10 : Nat) : Int) = (n : Int) := by
        omega
      rw [toDigits_large n (by omega),
        Atoi_loop_append w _ _ 0 _ (ih (n / 10) (by omega) hdiv),
        Atoi_loop_digit w hw _ (n % 10) (by omega) (by omega) (by rw [hsplit]; exact hn),
        hsplit]

theorem Atoi_slow_ok (w : Nat) (s : GoString) (i : Int)
    (hslow : ¬ ((w = 32 ∧ (0 < s.utf8ByteSize ∧ s.utf8ByteSize < 10)) ∨
      (w = 64 ∧ (0 < s.utf8ByteSize ∧ s.utf8ByteSize < 19))))
    (hp : strconv.ParseInt w s 0 = (i, none)) :
    strconv.Atoi w s = (wrapInt w i, none) := by
  unfold strconv.Atoi
  simp only [if_neg hslow, hp]

theorem Atoi_fast_unsigned (w : Nat) (s : GoString) (n : Int)
    (hfast : (w = 32 ∧ (0 < s.utf8ByteSize ∧ s.utf8ByteSize < 10)) ∨
      (w = 64 ∧ (0 < s.utf8ByteSize ∧ s.utf8ByteSize < 19)))
    (hplus : s.data.head? ≠ some '+') (hminus : s.data.head? ≠ some '-')
    (hloop : strconv.Atoi.loop w s.data 0 = some n) :
    strconv.Atoi w s = (n, none) := by
  unfold strconv.Atoi
  simp only [if_pos hfast]
  simp [hplus, hminus, hloop]

theorem Atoi_fast_minus (w : Nat) (r : List Char) (n : Int)
    (hfast : (w = 32 ∧ (0 < (String.mk ('-' :: r)).utf8ByteSize ∧
        (String.mk ('-' :: r)).utf8ByteSize < 10)) ∨
      (w = 64 ∧ (0 < (String.mk ('-' :: r)).utf8ByteSize ∧
        (String.mk ('-' :: r)).utf8ByteSize < 19)))
    (hr : r ≠ []) (hloop : strconv.Atoi.loop w r 0 = some n) :
    strconv.Atoi w ⟨'-' :: r⟩ = (wrapInt w (-n), none) := by
  have hlen : ¬ r.length < 1 := by
    cases r with
    | nil => exact absurd rfl hr
    | cons c cs => simp
  unfold strconv.Atoi
  simp only [if_pos hfast]
  simp [hloop, hlen]

/-- Reading back with `strconv.Atoi`: it returns, with a nil error, every integer of the
width of `int` from its base-10 rendering, on its fast path and on its slow path. -/
theorem Atoi_FormatInt (w : Nat) (hw : w = 32 ∨ w = 64) (i : Int) (hi : inIntRange w i) :
    strconv.Atoi w (strconv.FormatInt i) = (i, none) := by
  by_cases hfast : (w = 32 ∧ (0 < (strconv.FormatInt i).utf8ByteSize ∧
        (strconv.FormatInt i).utf8ByteSize < 10)) ∨
      (w = 64 ∧ (0 < (strconv.FormatInt i).utf8ByteSize ∧
        (strconv.FormatInt i).utf8ByteSize < 19))
  · by_cases hneg : i < 0
    · rw [FormatInt_neg i hneg] at hfast ⊢
      have hlen := length_le_utf8ByteSize ⟨'-' :: Nat.toDigits 10 i.natAbs⟩
      have hpow := toDigits_length_bound i.natAbs
      simp only [List.length_cons] at hlen
      have hsmall : ((i.natAbs : Nat) : Int) < 2 ^ (w - 1) := by
        rcases hfast with ⟨rfl, _, h2⟩ | ⟨rfl, _, h2⟩
        · have h3 : 10 ^ (Nat.toDigits 10 i.natAbs).length ≤ 10 ^ 8 :=
            Nat.pow_le_pow_right (by norm_num) (by omega)
          have h4 : ((2 : Int) ^ (32 - 1)) = 2147483648 := by norm_num
          have h5 : (10 : Nat) ^ 8 = 100000000 := by norm_num
          rw [h4]
          omega
        · have h3 : 10 ^ (Nat.toDigits 10 i.natAbs).length ≤ 10 ^ 17 :=
            Nat.pow_le_pow_right (by norm_num) (by omega)
          have h4 : ((2 : Int) ^ (64 - 1)) = 9223372036854775808 := by norm_num
          have h5 : (10 : Nat) ^ 17 = 100000000000000000 := by norm_num
          rw [h4]
          omega
      rw [Atoi_fast_minus w _ _ hfast (toDigits_ne_nil _)
        (Atoi_loop_toDigits w hw i.natAbs hsmall)]
      have : -((i.natAbs : Nat) : Int) = i := by omega
      rw [this, wrapInt_of_inIntRange w hw i hi]
    · rw [FormatInt_nonneg i (by omega)] at hfast ⊢
      have hsmall : ((i.natAbs : Nat) : Int) < 2 ^ (w - 1) := by
        have : ((i.natAbs : Nat) : Int) = i := by omega
        rw [this]; exact hi.2
      rw [Atoi_fast_unsigned w _ _ hfast (toDigits_head i.natAbs).1 (toDigits_head i.natAbs).2
        (Atoi_loop_toDigits w hw i.natAbs hsmall)]
      congr 1
      omega
  · rw [Atoi_slow_ok w _ i hfast (ParseInt_FormatInt w hw 0 (Or.inl rfl) i (by simpa using hi)),
      wrapInt_of_inIntRange w hw i hi]

theorem ParseUint_bitSize64 (w : Nat) (s : GoString) :
    strconv.ParseUint w s 64 = strconv.ParseUint 64 s 64 := by
  simp [strconv.ParseUint]

theorem ParseInt_range_bitSize64 (w : Nat) (s0 : GoString) (neg : Bool) (un : Nat) :
    strconv.ParseInt.range w s0 64 neg un = strconv.ParseInt.range 64 s0 64 neg un := by
  simp [strconv.ParseInt.range]

theorem ParseInt_bitSize64 (w : Nat) (s : GoString) :
    strconv.ParseInt w s 64 = strconv.ParseInt 64 s 64 := by
  unfold strconv.ParseInt
  simp only [ParseUint_bitSize64 w, ParseInt_range_bitSize64 w]

theorem Int64_parser_FormatInt (intSize : Nat) (i : Int) (hi : inIntRange 64 i) :
    env.parsers.Int64 intSize (strconv.FormatInt i) = (i, none) := by
  unfold env.parsers.Int64
  rw [ParseInt_bitSize64]
  exact ParseInt_FormatInt 64 (Or.inr rfl) 64 (Or.inr rfl) i (by simpa using hi)

/-- C10. Integer scalar round trip: when the key is present with the base-10 rendering of
`n`, `Int` returns `n` for every `n` representable as an `int` (of width 32 or 64), and
`Int64` returns `n` for every `n` representable as an `int64`, for every fallback and
without a panic. -/
theorem Int_roundtrip (intSize : Nat) (hw : intSize = 32 ∨ intSize = 64)
    (environ : Environ) (key : GoString) (n : Int)
    (hpresent : environ key = some (strconv.FormatInt n)) :
    (inIntRange intSize n → ∀ fb : GoInt, env.Int intSize environ key fb = Except.ok n) ∧
    (inIntRange 64 n → ∀ fb : GoInt64, env.Int64 intSize environ key fb = Except.ok n) := by
  constructor
  · intro hn fb
    rw [env.Int, Parse_present environ key _ _ fb hpresent, must_ok_iff]
    unfold env.parsers.Int
    rw [Atoi_FormatInt intSize hw n hn]
    exact ⟨rfl, rfl⟩
  · intro hn fb
    rw [env.Int64, Parse_present environ key _ _ fb hpresent, must_ok_iff,
      Int64_parser_FormatInt intSize n hn]
    exact ⟨rfl, rfl⟩

/-- C10, at the input of `TestInt` and `TestInt64`: value "2" with fallback 1 gives 2. -/
theorem Int_roundtrip_witness :
    setenv emptyEnviron "TESTING_ENV_INT" "2" "TESTING_ENV_INT" = some (strconv.FormatInt 2) ∧
      inIntRange 64 2 ∧
      env.Int 64 (setenv emptyEnviron "TESTING_ENV_INT" "2") "TESTING_ENV_INT" 1 =
        Except.ok 2 ∧
      env.Int64 64 (setenv emptyEnviron "TESTING_ENV_INT" "2") "TESTING_ENV_INT" 1 =
        Except.ok 2 :=
  ⟨by decide, by unfold inIntRange; decide,
    (Int_roundtrip 64 (Or.inr rfl) (setenv emptyEnviron "TESTING_ENV_INT" "2")
      "TESTING_ENV_INT" 2 (by decide)).1 (by unfold inIntRange; decide) 1,
    (Int_roundtrip 64 (Or.inr rfl) (setenv emptyEnviron "TESTING_ENV_INT" "2")
      "TESTING_ENV_INT" 2 (by decide)).2 (by unfold inIntRange; decide) 1⟩

/-! ## `strings.Split` on a joined list, and `strings.TrimSpace` on a clean element -/

theorem Split_scan_no_sep (sep : Char) :
    ∀ (a cur : List Char), sep ∉ a →
      strings.Split.scan sep cur a = [⟨cur.reverse ++ a⟩] := by
  intro a
  induction a with
  | nil => intro cur _; simp [strings.Split.scan]
  | cons c a ih =>
    intro cur h
    have hc : c ≠ sep := fun e => h (by simp [e])
    have ha : sep ∉ a := fun e => h (List.mem_cons_of_mem _ e)
    simp only [strings.Split.scan, if_neg hc]
    rw [ih (c :: cur) ha]
    simp

theorem Split_scan_sep (sep : Char) :
    ∀ (a b cur : List Char), sep ∉ a →
      strings.Split.scan sep cur (a ++ sep :: b) =
        ⟨cur.reverse ++ a⟩ :: strings.Split.scan sep [] b := by
  intro a
  induction a with
  | nil => intro b cur _; simp [strings.Split.scan]
  | cons c a ih =>
    intro b cur h
    have hc : c ≠ sep := fun e => h (by simp [e])
    have ha : sep ∉ a := fun e => h (List.mem_cons_of_mem _ e)
    rw [List.cons_append, strings.Split.scan, if_neg hc, ih b (c :: cur) ha]
    simp

theorem Split_scan_Join :
    ∀ (rest : List GoString) (a : GoString) (cur : List Char),
      (∀ x ∈ a :: rest, ',' ∉ x.data) →
      strings.Split.scan ',' cur (strings.Join (a :: rest) ", ").data =
        ⟨cur.reverse ++ a.data⟩ :: rest.map (fun x => ⟨' ' :: x.data⟩) := by
  intro rest
  induction rest with
  | nil =>
    intro a cur h
    simp only [strings.Join, List.map_nil]
    exact Split_scan_no_sep ',' a.data cur (h a (List.mem_cons_self _ _))
  | cons b rest ih =>
    intro a cur h
    have hdata : (strings.Join (a :: b :: rest) ", ").data =
        a.data ++ ',' :: ' ' :: (strings.Join (b :: rest) ", ").data := by
      simp [strings.Join, String.data_append]
    rw [hdata, Split_scan_sep ',' _ _ cur (h a (List.mem_cons_self _ _))]
    have hstep : strings.Split.scan ',' [] (' ' :: (strings.Join (b :: rest) ", ").data) =
        strings.Split.scan ',' [' '] (strings.Join (b :: rest) ", ").data := by
      simp [strings.Split.scan]
    rw [hstep, ih b [' '] (fun x hx => h x (List.mem_cons_of_mem _ hx))]
    simp

theorem dropWhile_of_head (p : Char → Bool) (l : List Char)
    (h : ∀ c, l.head? = some c → p c = false) : l.dropWhile p = l := by
  cases l with
  | nil => rfl
  | cons c cs => simp [List.dropWhile, h c rfl]

theorem TrimSpace_of_isListElement (x : GoString) (hx : isListElement x) :
    strings.TrimSpace x = x := by
  obtain ⟨_, hhead, hlast⟩ := hx
  unfold strings.TrimSpace
  rw [dropWhile_of_head unicode.IsSpace x.data hhead,
    dropWhile_of_head unicode.IsSpace x.data.reverse (by
      intro c hc
      rw [List.head?_reverse] at hc
      exact hlast c hc),
    List.reverse_reverse]

theorem TrimSpace_space_cons (x : GoString) (hx : isListElement x) :
    strings.TrimSpace ⟨' ' :: x.data⟩ = x := by
  have h : strings.TrimSpace ⟨' ' :: x.data⟩ = strings.TrimSpace x := by
    unfold strings.TrimSpace
    have hsp : unicode.IsSpace ' ' = true := by decide
    simp [List.dropWhile, hsp]
  rw [h, TrimSpace_of_isListElement x hx]

theorem Split_Join_trimmed (xs : List GoString) (hne : xs ≠ [])
    (hclean : ∀ x ∈ xs, isListElement x) :
    (strings.Split (strings.Join xs ", ") ',').map strings.TrimSpace = xs := by
  cases xs with
  | nil => exact absurd rfl hne
  | cons a rest =>
    unfold strings.Split
    rw [Split_scan_Join rest a [] (fun x hx => (hclean x hx).1)]
    simp only [List.reverse_nil, List.nil_append, List.map_cons, List.map_map]
    rw [TrimSpace_of_isListElement a (hclean a (List.mem_cons_self _ _))]
    congr 1
    calc List.map (strings.TrimSpace ∘ fun x => ⟨' ' :: x.data⟩) rest
        = List.map id rest := by
          apply List.map_congr_left
          intro x hx
          exact TrimSpace_space_cons x (hclean x (List.mem_cons_of_mem _ hx))
      _ = rest := List.map_id rest

theorem List_of_trimmed {T : Type} (environ : Environ) (key v : GoString)
    (p : env.Parser T) (fb : Slice T) (ts : List GoString)
    (hpresent : environ key = some v)
    (hts : (strings.Split v ',').map strings.TrimSpace = ts)
    (hok : ∀ t ∈ ts, (p t).2 = none) :
    env.List environ key p fb = ts.map (fun t => (p t).1) := by
  rw [List_present environ key v p fb hpresent,
    List_loop_ok p fb _ [] (by
      intro w hw
      apply hok
      rw [← hts]
      exact List.mem_map_of_mem _ hw),
    ← hts]
  simp [List.map_map, Function.comp_def]

theorem isListElement_of_chars (x : GoString)
    (h : ∀ c ∈ x.data, c ≠ ',' ∧ unicode.IsSpace c = false) : isListElement x := by
  refine ⟨fun hc => (h ',' hc).1 rfl, ?_, ?_⟩
  · intro c hc
    exact (h c (List.mem_of_mem_head? hc)).2
  · intro c hc
    exact (h c (List.mem_of_getLast?_eq_some hc)).2

theorem digitChar_clean (d : Nat) (hd : d < 10) :
    Nat.digitChar d ≠ ',' ∧ unicode.IsSpace (Nat.digitChar d) = false := by
  interval_cases d <;> decide

theorem FormatInt_isListElement (i : Int) : isListElement (strconv.FormatInt i) := by
  apply isListElement_of_chars
  intro c hc
  by_cases hneg : i < 0
  · rw [FormatInt_neg i hneg] at hc
    rcases List.mem_cons.mp hc with rfl | hc
    · decide
    · obtain ⟨d, hd, rfl⟩ := toDigits_chars _ c hc
      exact digitChar_clean d hd
  · rw [FormatInt_nonneg i (by omega), repr_data] at hc
    obtain ⟨d, hd, rfl⟩ := toDigits_chars _ c hc
    exact digitChar_clean d hd

/-- C8. List round trip for strings: for a non-empty list `xs` of strings none of which
contains a comma or has leading or trailing white space, when the key's value is the
elements of `xs` joined with ", ", List with the Identity parser returns exactly `xs`,
for every fallback. -/
theorem List_Identity_roundtrip (environ : Environ) (key : GoString) (xs : List GoString)
    (fb : Slice GoString) (hne : xs ≠ []) (hclean : ∀ x ∈ xs, isListElement x)
    (hpresent : environ key = some (strings.Join xs ", ")) :
    env.List environ key env.parsers.Identity fb = xs := by
  rw [List_of_trimmed environ key _ env.parsers.Identity fb xs hpresent
    (Split_Join_trimmed xs hne hclean) (fun _ _ => rfl)]
  exact List.map_id xs

/-- C8, at the input of `TestList_String`: value "A, B, C" with fallback [] gives
["A", "B", "C"]. -/
theorem List_Identity_roundtrip_witness :
    (["A", "B", "C"] : List GoString) ≠ [] ∧
      setenv emptyEnviron "TESTING_ENV_STRING" "A, B, C" "TESTING_ENV_STRING" =
        some (strings.Join ["A", "B", "C"] ", ") ∧
      env.List (setenv emptyEnviron "TESTING_ENV_STRING" "A, B, C") "TESTING_ENV_STRING"
        env.parsers.Identity [] = ["A", "B", "C"] :=
  ⟨by decide, by decide,
    List_Identity_roundtrip (setenv emptyEnviron "TESTING_ENV_STRING" "A, B, C")
      "TESTING_ENV_STRING" ["A", "B", "C"] [] (by decide)
      (by
        intro x hx
        apply isListElement_of_chars
        simp only [List.mem_cons, List.mem_singleton, List.not_mem_nil, or_false] at hx
        rcases hx with rfl | rfl | rfl <;> decide)
      (by decide)⟩

/-- C9. List round trip for 64-bit integers: for a non-empty list `xs` of int64 values,
when the key's value is the base-10 renderings of the elements of `xs` joined with ", ",
List with the Int64 parser returns exactly `xs`, for every fallback. -/
theorem List_Int64_roundtrip (intSize : Nat) (environ : Environ) (key : GoString)
    (xs : List GoInt64) (fb : Slice GoInt64) (hne : xs ≠ [])
    (hrange : ∀ x ∈ xs, inIntRange 64 x)
    (hpresent : environ key = some (strings.Join (xs.map strconv.FormatInt) ", ")) :
    env.List environ key (env.parsers.Int64 intSize) fb = xs := by
  rw [List_of_trimmed environ key _ (env.parsers.Int64 intSize) fb (xs.map strconv.FormatInt)
    hpresent
    (Split_Join_trimmed _ (by simpa using hne) (by
      intro s hs
      obtain ⟨x, _, rfl⟩ := List.mem_map.mp hs
      exact FormatInt_isListElement x))
    (by
      intro s hs
      obtain ⟨x, hx, rfl⟩ := List.mem_map.mp hs
      rw [Int64_parser_FormatInt intSize x (hrange x hx)])]
  rw [List.map_map]
  calc List.map ((fun t => (env.parsers.Int64 intSize t).1) ∘ strconv.FormatInt) xs
      = List.map id xs := by
        apply List.map_congr_left
        intro x hx
        simp only [Function.comp_apply, id]
        rw [Int64_parser_FormatInt intSize x (hrange x hx)]
    _ = xs := List.map_id xs

/-- C9, at the input of `TestList_Int64`: value "1, 2, 3" with fallback [] gives
[1, 2, 3]. -/
theorem List_Int64_roundtrip_witness :
    ([1, 2, 3] : List GoInt64) ≠ [] ∧
      (∀ x ∈ ([1, 2, 3] : List GoInt64), inIntRange 64 x) ∧
      setenv emptyEnviron "TESTING_ENV_STRING" "1, 2, 3" "TESTING_ENV_STRING" =
        some (strings.Join (([1, 2, 3] : List GoInt64).map strconv.FormatInt) ", ") ∧
      env.List (setenv emptyEnviron "TESTING_ENV_STRING" "1, 2, 3") "TESTING_ENV_STRING"
        (env.parsers.Int64 64) [] = [1, 2, 3] :=
  ⟨by decide, by
      intro x hx
      simp only [List.mem_cons, List.mem_singleton, List.not_mem_nil, or_false] at hx
      unfold inIntRange
      rcases hx with rfl | rfl | rfl <;> decide,
    by decide,
    List_Int64_roundtrip 64 (setenv emptyEnviron "TESTING_ENV_STRING" "1, 2, 3")
      "TESTING_ENV_STRING" [1, 2, 3] [] (by decide)
      (by
        intro x hx
        simp only [List.mem_cons, List.mem_singleton, List.not_mem_nil, or_false] at hx
        unfold inIntRange
        rcases hx with rfl | rfl | rfl <;> decide)
      (by decide)⟩

/-! ## `strings.Split` is the inverse of joining with the separator -/

theorem Split_scan_ne_nil (sep : Char) (cs cur : List Char) :
    strings.Split.scan sep cur cs ≠ [] := by
  intro h
  have := Split_scan_length sep cs cur
  rw [h] at this
  simp at this

theorem Join_Split_scan :
    ∀ (cs cur : List Char),
      (strings.Join (strings.Split.scan ',' cur cs) ",").data = cur.reverse ++ cs := by
  intro cs
  induction cs with
  | nil => intro cur; simp [strings.Split.scan, strings.Join]
  | cons c cs ih =>
    intro cur
    by_cases hc : c = ','
    · subst hc
      rw [strings.Split.scan, if_pos rfl]
      cases hL : strings.Split.scan ',' [] cs with
      | nil => exact absurd hL (Split_scan_ne_nil ',' cs [])
      | cons b rest =>
        have hih := ih []
        rw [hL] at hih
        simp only [strings.Join, String.data_append, hih]
        simp
    · rw [strings.Split.scan, if_neg hc, ih (c :: cur)]
      simp

/-- Joining the segments of `strings.Split(s, ",")` with "," gives `s` back. -/
theorem Join_Split (s : GoString) : strings.Join (strings.Split s ',') "," = s := by
  apply String.ext
  rw [strings.Split, Join_Split_scan]
  simp

theorem Split_scan_no_comma :
    ∀ (cs cur : List Char), ',' ∉ cur →
      ∀ w ∈ strings.Split.scan ',' cur cs, ',' ∉ w.data := by
  intro cs
  induction cs with
  | nil =>
    intro cur hcur w hw
    simp only [strings.Split.scan, List.mem_singleton] at hw
    subst hw
    simpa using hcur
  | cons c cs ih =>
    intro cur hcur w hw
    by_cases hc : c = ','
    · subst hc
      rw [strings.Split.scan, if_pos rfl] at hw
      rcases List.mem_cons.mp hw with rfl | hw
      · simpa using hcur
      · exact ih [] (by simp) w hw
    · rw [strings.Split.scan, if_neg hc] at hw
      refine ih (c :: cur) ?_ w hw
      intro hmem
      rcases List.mem_cons.mp hmem with h | h
      · exact hc h.symm
      · exact hcur h

/-- No segment of `strings.Split(s, ",")` contains a comma. -/
theorem Split_no_comma (s w : GoString) (hw : w ∈ strings.Split s ',') : ',' ∉ w.data :=
  Split_scan_no_comma s.data [] (by simp) w hw

/-! ## `Bool` -/

theorem ParseBool_true (v : GoString)
    (h : v = "1" ∨ v = "t" ∨ v = "T" ∨ v = "TRUE" ∨ v = "true" ∨ v = "True") :
    strconv.ParseBool v = (true, none) := by
  unfold strconv.ParseBool
  rw [if_pos h]

theorem ParseBool_false (v : GoString)
    (h : v = "0" ∨ v = "f" ∨ v = "F" ∨ v = "FALSE" ∨ v = "false" ∨ v = "False") :
    strconv.ParseBool v = (false, none) := by
  unfold strconv.ParseBool
  rw [if_neg (by rcases h with rfl | rfl | rfl | rfl | rfl | rfl <;> decide), if_pos h]

theorem ParseBool_other (v : GoString)
    (ht : ¬ (v = "1" ∨ v = "t" ∨ v = "T" ∨ v = "TRUE" ∨ v = "true" ∨ v = "True"))
    (hf : ¬ (v = "0" ∨ v = "f" ∨ v = "F" ∨ v = "FALSE" ∨ v = "false" ∨ v = "False")) :
    strconv.ParseBool v = (false, some (strconv.syntaxError "ParseBool" v)) := by
  unfold strconv.ParseBool
  rw [if_neg ht, if_neg hf]

/-- C11, as stated, fails: "tRuE" equals "true" up to letter case, and `Bool` on a key with
that value panics with the syntax error of `ParseBool` instead of returning true. -/
theorem Bool_mixed_case_panics :
    equalFold "tRuE" "true" = true ∧
      env.Bool (setenv emptyEnviron "TESTING_ENV_BOOL" "tRuE") "TESTING_ENV_BOOL" false =
        Except.error (strconv.syntaxError "ParseBool" "tRuE") ∧
      env.Bool (setenv emptyEnviron "TESTING_ENV_BOOL" "tRuE") "TESTING_ENV_BOOL" false ≠
        Except.ok true := by
  refine ⟨by decide, by decide, by decide⟩

/-- C11, amended. `Bool` accepts exactly the literals of `strconv.ParseBool`: for a key
present with value "1", "t", "T", "TRUE", "true" or "True" it returns true, with value
"0", "f", "F", "FALSE", "false" or "False" it returns false, in neither case panicking;
with any other value, a mixed-case spelling included, it panics with the syntax error of
`ParseBool`. -/
theorem Bool_accepts_ParseBool_literals (environ : Environ) (key v : GoString)
    (fb : GoBool) (hpresent : environ key = some v) :
    ((v = "1" ∨ v = "t" ∨ v = "T" ∨ v = "TRUE" ∨ v = "true" ∨ v = "True") →
        env.Bool environ key fb = Except.ok true) ∧
      ((v = "0" ∨ v = "f" ∨ v = "F" ∨ v = "FALSE" ∨ v = "false" ∨ v = "False") →
        env.Bool environ key fb = Except.ok false) ∧
      (¬ (v = "1" ∨ v = "t" ∨ v = "T" ∨ v = "TRUE" ∨ v = "true" ∨ v = "True") →
        ¬ (v = "0" ∨ v = "f" ∨ v = "F" ∨ v = "FALSE" ∨ v = "false" ∨ v = "False") →
        env.Bool environ key fb = Except.error (strconv.syntaxError "ParseBool" v)) := by
  have hB : env.Bool environ key fb = env.must (strconv.ParseBool v) := by
    rw [env.Bool, Parse_present environ key v _ fb hpresent]
    rfl
  refine ⟨?_, ?_, ?_⟩
  · intro h
    rw [hB, ParseBool_true v h]
    rfl
  · intro h
    rw [hB, ParseBool_false v h]
    rfl
  · intro ht hf
    rw [hB, ParseBool_other v ht hf]
    rfl

/-- C11, amended, at the input of `TestBool`: value "false" with fallback true gives
false. -/
theorem Bool_accepts_ParseBool_literals_witness :
    setenv emptyEnviron "TESTING_ENV_BOOL" "false" "TESTING_ENV_BOOL" = some "false" ∧
      env.Bool (setenv emptyEnviron "TESTING_ENV_BOOL" "false") "TESTING_ENV_BOOL" true =
        Except.ok false :=
  ⟨by decide,
    (Bool_accepts_ParseBool_literals (setenv emptyEnviron "TESTING_ENV_BOOL" "false")
      "TESTING_ENV_BOOL" "false" true (by decide)).2.1 (by decide)⟩

/-! ## A value with a single segment -/

theorem Split_no_sep (v : GoString) (h : ',' ∉ v.data) : strings.Split v ',' = [v] := by
  unfold strings.Split
  rw [Split_scan_no_sep ',' v.data [] h]
  simp

theorem List_single_segment {T : Type} (environ : Environ) (key v : GoString)
    (p : env.Parser T) (fb : Slice T) (hpresent : environ key = some v)
    (hcomma : ',' ∉ v.data) :
    env.List environ key p fb =
      match (p (strings.TrimSpace v)).2 with
      | none => [(p (strings.TrimSpace v)).1]
      | some _ => fb := by
  rw [List_present environ key v p fb hpresent, Split_no_sep v hcomma]
  cases h : (p (strings.TrimSpace v)).2 with
  | none =>
    rw [List_loop_cons_ok p fb v [] [] h]
    simp [env.List.loop]
  | some e =>
    rw [List_loop_cons_error p fb v [] [] (by simp [h])]

theorem Atoi_empty (w : Nat) :
    (strconv.Atoi w "").2 = some (strconv.syntaxError "Atoi" "") := by
  have hlen : ("" : String).utf8ByteSize = 0 := by decide
  have hp : strconv.ParseInt w "" 0 = (0, some (strconv.syntaxError "ParseInt" "")) := rfl
  unfold strconv.Atoi
  simp only [hlen]
  rw [if_neg (by omega), hp]
  rfl

theorem ParseInt_empty (w b : Nat) :
    strconv.ParseInt w "" b = (0, some (strconv.syntaxError "ParseInt" "")) := rfl

theorem ParseBool_empty :
    strconv.ParseBool "" = (false, some (strconv.syntaxError "ParseBool" "")) := by
  decide

theorem ParseFloat_empty {F : Type} (zero : F) (atof : GoString → Nat → F × Option error)
    (b : Nat) :
    strconv.ParseFloat zero atof "" b = (zero, some (strconv.syntaxError "ParseFloat" "")) := by
  unfold strconv.ParseFloat
  rw [if_pos rfl]

theorem ParseDuration_empty (groups : GoString → Bool → GoString → GoInt64 × Option error) :
    time.ParseDuration groups "" =
      (0, some (error.New "time: invalid duration \"\"")) := rfl

/-- C12. For a key present with the empty string as its value, List processes exactly one
segment, the empty string: it returns the fallback when the parser rejects "", which the
Int, Int64, Float64, Bool and Duration parsers do, and the one-element list of the parsed
value when the parser accepts it; the Identity parser gives [""]. -/
theorem List_empty_value (environ : Environ) (key : GoString)
    (hpresent : environ key = some "") :
    strings.Split "" ',' = [""] ∧ strings.TrimSpace "" = "" ∧
    (∀ (T : Type) (p : env.Parser T) (fb : Slice T), (p "").2 ≠ none →
      env.List environ key p fb = fb) ∧
    (∀ (T : Type) (p : env.Parser T) (fb : Slice T), (p "").2 = none →
      env.List environ key p fb = [(p "").1]) ∧
    (∀ (intSize : Nat) (fb : Slice GoInt),
      env.List environ key (env.parsers.Int intSize) fb = fb) ∧
    (∀ (intSize : Nat) (fb : Slice GoInt64),
      env.List environ key (env.parsers.Int64 intSize) fb = fb) ∧
    (∀ (F : Type) (zero : F) (atof : GoString → Nat → F × Option error) (fb : Slice F),
      env.List environ key (env.parsers.Float64 (strconv.ParseFloat zero atof)) fb = fb) ∧
    (∀ fb : Slice GoBool, env.List environ key env.parsers.Bool fb = fb) ∧
    (∀ (groups : GoString → Bool → GoString → GoInt64 × Option error) (fb : Slice GoInt64),
      env.List environ key (env.parsers.Duration (time.ParseDuration groups)) fb = fb) ∧
    (∀ fb : Slice GoString, env.List environ key env.parsers.Identity fb = [""]) := by
  have hsplit : strings.Split "" ',' = [""] := by decide
  have htrim : strings.TrimSpace "" = "" := by decide
  have hrej : ∀ (T : Type) (p : env.Parser T) (fb : Slice T), (p "").2 ≠ none →
      env.List environ key p fb = fb := by
    intro T p fb h
    rw [List_single_segment environ key "" p fb hpresent (by simp), htrim]
    cases hp : (p "").2 with
    | none => exact absurd hp h
    | some e => rfl
  have hacc : ∀ (T : Type) (p : env.Parser T) (fb : Slice T), (p "").2 = none →
      env.List environ key p fb = [(p "").1] := by
    intro T p fb h
    rw [List_single_segment environ key "" p fb hpresent (by simp), htrim]
    simp only [h]
  refine ⟨hsplit, htrim, hrej, hacc, ?_, ?_, ?_, ?_, ?_, ?_⟩
  · intro w fb
    apply hrej
    show (strconv.Atoi w "").2 ≠ none
    rw [Atoi_empty]
    simp
  · intro w fb
    apply hrej
    show (strconv.ParseInt w "" 64).2 ≠ none
    rw [ParseInt_empty]
    simp
  · intro F zero atof fb
    apply hrej
    show (strconv.ParseFloat zero atof "" 64).2 ≠ none
    rw [ParseFloat_empty]
    simp
  · intro fb
    apply hrej
    show (strconv.ParseBool "").2 ≠ none
    rw [ParseBool_empty]
    simp
  · intro groups fb
    apply hrej
    show (time.ParseDuration groups "").2 ≠ none
    rw [ParseDuration_empty]
    simp
  · intro fb
    exact hacc GoString env.parsers.Identity fb rfl

/-- C12, with `TESTING_ENV_STRING` set to the empty string: the Int64 parser gives the
fallback [1, 2, 3] and the Identity parser gives [""]. -/
theorem List_empty_value_witness :
    setenv emptyEnviron "TESTING_ENV_STRING" "" "TESTING_ENV_STRING" = some "" ∧
      env.List (setenv emptyEnviron "TESTING_ENV_STRING" "") "TESTING_ENV_STRING"
        (env.parsers.Int64 64) [1, 2, 3] = [1, 2, 3] ∧
      env.List (setenv emptyEnviron "TESTING_ENV_STRING" "") "TESTING_ENV_STRING"
        env.parsers.Identity ["A"] = [""] :=
  ⟨by decide,
    (List_empty_value (setenv emptyEnviron "TESTING_ENV_STRING" "") "TESTING_ENV_STRING"
      (by decide)).2.2.2.2.2.1 64 [1, 2, 3],
    (List_empty_value (setenv emptyEnviron "TESTING_ENV_STRING" "") "TESTING_ENV_STRING"
      (by decide)).2.2.2.2.2.2.2.2.2 ["A"]⟩

/-! ## Calls as steps: what a call does to the state -/

theorem getEnv_call_eq {S : Type} (key : GoString) (w : World S) :
    env.getEnv.call key w = (env.getEnv w.environ key, w) := rfl

theorem Parse_call_absent {S T : Type} (key : GoString) (parser : env.Closure S T) (fb : T)
    (w : World S) (h : w.environ key = none) :
    env.Parse.call key parser fb w = (Except.ok fb, w) := by
  unfold env.Parse.call
  rw [getEnv_call_eq, getEnv_absent w.environ key h]
  simp

theorem Parse_call_present {S T : Type} (key v : GoString) (parser : env.Closure S T)
    (fb : T) (w : World S) (h : w.environ key = some v) :
    env.Parse.call key parser fb w = (env.must (parser v w).1, (parser v w).2) := by
  unfold env.Parse.call
  rw [getEnv_call_eq, getEnv_present w.environ key v h]
  simp

theorem List_call_absent {S T : Type} (key : GoString) (parser : env.Closure S T)
    (fb : Slice T) (w : World S) (h : w.environ key = none) :
    env.List.call key parser fb w = (fb, w) := by
  unfold env.List.call
  rw [getEnv_call_eq, getEnv_absent w.environ key h]
  simp

theorem List_call_present {S T : Type} (key v : GoString) (parser : env.Closure S T)
    (fb : Slice T) (w : World S) (h : w.environ key = some v) :
    env.List.call key parser fb w =
      env.List.loop.call parser fb (strings.Split v ',') [] w := by
  unfold env.List.call
  rw [getEnv_call_eq, getEnv_present w.environ key v h]
  simp

theorem List_loop_call_state {S T : Type} (parser : env.Closure S T) (fb : Slice T)
    (hp : env.Closure.writesNothing parser) :
    ∀ (words : List GoString) (values : Slice T) (w : World S),
      (env.List.loop.call parser fb words values w).2 = w := by
  intro words
  induction words with
  | nil => intro values w; rfl
  | cons word rest ih =>
    intro values w
    unfold env.List.loop.call
    have hw := hp (strings.TrimSpace word) w
    cases hr : (parser (strings.TrimSpace word) w).1.2 with
    | some e => simp only [hr]; exact hw
    | none =>
      simp only [hr]
      rw [ih, hw]

theorem Parse_call_state {S T : Type} (key : GoString) (parser : env.Closure S T) (fb : T)
    (hp : env.Closure.writesNothing parser) (w : World S) :
    (env.Parse.call key parser fb w).2 = w := by
  cases h : w.environ key with
  | none => rw [Parse_call_absent key parser fb w h]
  | some v =>
    rw [Parse_call_present key v parser fb w h]
    exact hp v w

theorem List_call_state {S T : Type} (key : GoString) (parser : env.Closure S T)
    (fb : Slice T) (hp : env.Closure.writesNothing parser) (w : World S) :
    (env.List.call key parser fb w).2 = w := by
  cases h : w.environ key with
  | none => rw [List_call_absent key parser fb w h]
  | some v =>
    rw [List_call_present key v parser fb w h]
    exact List_loop_call_state parser fb hp _ _ w

theorem isIdempotentCall_of_state {S α : Type} (call : World S → α × World S)
    (h : ∀ w, (call w).2 = w) : isIdempotentCall call := by
  intro w
  refine ⟨h w, ?_⟩
  rw [h w]

theorem ofPure_writesNothing {S T : Type} (p : env.Parser T) :
    env.Closure.writesNothing (env.Closure.ofPure p : env.Closure S T) :=
  fun _ _ => rfl

theorem List_loop_call_ofPure {S T : Type} (p : env.Parser T) (fb : Slice T) :
    ∀ (words : List GoString) (values : Slice T) (w : World S),
      env.List.loop.call (env.Closure.ofPure p) fb words values w =
        (env.List.loop p fb words values, w) := by
  intro words
  induction words with
  | nil => intro values w; rfl
  | cons word rest ih =>
    intro values w
    unfold env.List.loop.call env.List.loop
    cases hr : (p (strings.TrimSpace word)).2 with
    | some e => simp [env.Closure.ofPure, hr]
    | none => simp [env.Closure.ofPure, hr, ih]

theorem Parse_call_ofPure {S T : Type} (key : GoString) (p : env.Parser T) (fb : T)
    (w : World S) :
    env.Parse.call key (env.Closure.ofPure p) fb w = (env.Parse w.environ key p fb, w) := by
  cases h : w.environ key with
  | none => rw [Parse_call_absent key _ fb w h, Parse_absent w.environ key p fb h]
  | some v =>
    rw [Parse_call_present key v _ fb w h, Parse_present w.environ key v p fb h]
    rfl

theorem List_call_ofPure {S T : Type} (key : GoString) (p : env.Parser T) (fb : Slice T)
    (w : World S) :
    env.List.call key (env.Closure.ofPure p) fb w = (env.List w.environ key p fb, w) := by
  cases h : w.environ key with
  | none => rw [List_call_absent key _ fb w h, List_absent w.environ key p fb h]
  | some v =>
    rw [List_call_present key v _ fb w h, List_present w.environ key v p fb h,
      List_loop_call_ofPure]

/-- C13, as stated for every parser, fails.  A parser closure that writes the environment
makes `Parse` leave another environment than it found (`K` goes from "a" to "a!") and
return "a" on the first call and "a!" on the second.  A parser closure that counts its
calls leaves the environment alone and still makes `Parse` return 0, then 1, and `List`
return [0], then [1]. -/
theorem accessors_not_idempotent_for_writing_closures :
    (env.Parse.call "K" writingParser "" ⟨setenv emptyEnviron "K" "a", ()⟩).1 =
        Except.ok "a" ∧
      (env.Parse.call "K" writingParser "" ⟨setenv emptyEnviron "K" "a", ()⟩).2.environ "K" =
        some "a!" ∧
      (env.Parse.call "K" writingParser ""
        (env.Parse.call "K" writingParser "" ⟨setenv emptyEnviron "K" "a", ()⟩).2).1 =
        Except.ok "a!" ∧
      ¬ isIdempotentCall (env.Parse.call "K" writingParser "") ∧
      (env.Parse.call "K" countingParser 7 ⟨setenv emptyEnviron "K" "a", 0⟩).1 =
        Except.ok 0 ∧
      (env.Parse.call "K" countingParser 7 ⟨setenv emptyEnviron "K" "a", 0⟩).2.environ =
        setenv emptyEnviron "K" "a" ∧
      (env.Parse.call "K" countingParser 7
        (env.Parse.call "K" countingParser 7 ⟨setenv emptyEnviron "K" "a", 0⟩).2).1 =
        Except.ok 1 ∧
      ¬ isIdempotentCall (env.Parse.call "K" countingParser 7) ∧
      (env.List.call "K" countingParser [] ⟨setenv emptyEnviron "K" "a", 0⟩).1 = [0] ∧
      (env.List.call "K" countingParser []
        (env.List.call "K" countingParser [] ⟨setenv emptyEnviron "K" "a", 0⟩).2).1 = [1] ∧
      ¬ isIdempotentCall (env.List.call "K" countingParser []) := by
  refine ⟨by decide, by decide, by decide, ?_, by decide, rfl, by decide, ?_, by decide,
    by decide, ?_⟩
  · intro h
    exact absurd (h ⟨setenv emptyEnviron "K" "a", ()⟩).2 (by decide)
  · intro h
    exact absurd (h ⟨setenv emptyEnviron "K" "a", 0⟩).2 (by decide)
  · intro h
    exact absurd (h ⟨setenv emptyEnviron "K" "a", 0⟩).2 (by decide)

/-- C13, amended. For every parser that writes neither the environment nor its captured
variables, which every pure function and every parser of the catalogue is, Parse and
List, taken as steps on the state, leave the state as they found it, and a second call
made right after the first has the same outcome, the same returned value or a panic with
the same error; so do the typed specialisations.  On a pure parser the outcome of the
step is the value of the accessor on the environment it starts from, and on an absent
key the step returns the fallback and leaves the state alone whatever the parser is. -/
theorem accessors_idempotent_of_writesNothing {S T : Type} (parser : env.Closure S T)
    (hp : env.Closure.writesNothing parser) :
    (∀ (key : GoString) (fb : T), isIdempotentCall (env.Parse.call key parser fb)) ∧
    (∀ (key : GoString) (fb : Slice T), isIdempotentCall (env.List.call key parser fb)) ∧
    (∀ key fb, isIdempotentCall (@env.String.call S key fb)) ∧
    (∀ intSize key fb, isIdempotentCall (@env.Int.call S intSize key fb)) ∧
    (∀ intSize key fb, isIdempotentCall (@env.Int64.call S intSize key fb)) ∧
    (∀ (F : Type) (ParseFloat : GoString → Nat → F × Option error) key fb,
      isIdempotentCall (@env.Float64.call S F ParseFloat key fb)) ∧
    (∀ ParseDuration key fb, isIdempotentCall (@env.Duration.call S ParseDuration key fb)) ∧
    (∀ key fb, isIdempotentCall (@env.Bool.call S key fb)) ∧
    (∀ (p : env.Parser T) (key : GoString) (fb : T) (w : World S),
      env.Parse.call key (env.Closure.ofPure p) fb w = (env.Parse w.environ key p fb, w)) ∧
    (∀ (p : env.Parser T) (key : GoString) (fb : Slice T) (w : World S),
      env.List.call key (env.Closure.ofPure p) fb w = (env.List w.environ key p fb, w)) ∧
    (∀ (q : env.Closure S T) (key : GoString) (fb : T) (w : World S),
      w.environ key = none → env.Parse.call key q fb w = (Except.ok fb, w)) ∧
    (∀ (q : env.Closure S T) (key : GoString) (fb : Slice T) (w : World S),
      w.environ key = none → env.List.call key q fb w = (fb, w)) := by
  have hpure : ∀ (U : Type) (p : env.Parser U) (key : GoString) (fb : U),
      isIdempotentCall (env.Parse.call key (env.Closure.ofPure p : env.Closure S U) fb) :=
    fun U p key fb =>
      isIdempotentCall_of_state _ (Parse_call_state key _ fb (ofPure_writesNothing p))
  refine ⟨?_, ?_, ?_, ?_, ?_, ?_, ?_, ?_, ?_, ?_, ?_, ?_⟩
  · intro key fb
    exact isIdempotentCall_of_state _ (Parse_call_state key parser fb hp)
  · intro key fb
    exact isIdempotentCall_of_state _ (List_call_state key parser fb hp)
  · intro key fb; exact hpure _ _ key fb
  · intro w key fb; exact hpure _ _ key fb
  · intro w key fb; exact hpure _ _ key fb
  · intro F pf key fb; exact hpure _ _ key fb
  · intro pd key fb; exact hpure _ _ key fb
  · intro key fb; exact hpure _ _ key fb
  · intro p key fb w; exact Parse_call_ofPure key p fb w
  · intro p key fb w; exact List_call_ofPure key p fb w
  · intro q key fb w h; exact Parse_call_absent key q fb w h
  · intro q key fb w h; exact List_call_absent key q fb w h

/-- C13, amended, at a parser that reads the environment and writes nothing: with `K` set
to "a" and `SUFFIX` to "b", `Parse` returns "ab" on both calls and leaves the state as it
found it. -/
theorem accessors_idempotent_of_writesNothing_witness :
    env.Closure.writesNothing readingParser ∧
      ((env.Parse.call "K" readingParser ""
          ⟨setenv (setenv emptyEnviron "K" "a") "SUFFIX" "b", ()⟩).2 =
          ⟨setenv (setenv emptyEnviron "K" "a") "SUFFIX" "b", ()⟩ ∧
        (env.Parse.call "K" readingParser ""
          (env.Parse.call "K" readingParser ""
            ⟨setenv (setenv emptyEnviron "K" "a") "SUFFIX" "b", ()⟩).2).1 =
          (env.Parse.call "K" readingParser ""
            ⟨setenv (setenv emptyEnviron "K" "a") "SUFFIX" "b", ()⟩).1) ∧
      (env.Parse.call "K" readingParser ""
        ⟨setenv (setenv emptyEnviron "K" "a") "SUFFIX" "b", ()⟩).1 = Except.ok "ab" :=
  ⟨fun _ _ => rfl,
    (accessors_idempotent_of_writesNothing readingParser (fun _ _ => rfl)).1 "K" ""
      ⟨setenv (setenv emptyEnviron "K" "a") "SUFFIX" "b", ()⟩,
    by decide⟩

/-! ## Scalar accessors read the raw value, `List` the trimmed one -/

/-- C14. For a key present with a comma-free value `v`, Parse applies the parser to `v`
exactly as stored, while List applies it to `v` with the surrounding white space
trimmed: Parse is `must(p(v))`, and List is the one-element list of the value of
`p(TrimSpace(v))`, or the fallback when that parse fails. -/
theorem Parse_raw_List_trimmed {T : Type} (environ : Environ) (key v : GoString)
    (p : env.Parser T) (fb : T) (fbs : Slice T) (hpresent : environ key = some v)
    (hcomma : ',' ∉ v.data) :
    env.Parse environ key p fb = env.must (p v) ∧
      env.List environ key p fbs =
        match (p (strings.TrimSpace v)).2 with
        | none => [(p (strings.TrimSpace v)).1]
        | some _ => fbs :=
  ⟨Parse_present environ key v p fb hpresent,
    List_single_segment environ key v p fbs hpresent hcomma⟩

/-- C14, at the value " 2": `Int` panics with the syntax error of `Atoi` on the raw
value, and List with the Int parser returns [2], for `int` of 64 and of 32 bits. -/
theorem Parse_raw_List_trimmed_witness :
    setenv emptyEnviron "TESTING_ENV_INT" " 2" "TESTING_ENV_INT" = some " 2" ∧
      ',' ∉ (" 2" : GoString).data ∧
      env.Int 64 (setenv emptyEnviron "TESTING_ENV_INT" " 2") "TESTING_ENV_INT" 1 =
        Except.error (strconv.syntaxError "Atoi" " 2") ∧
      env.List (setenv emptyEnviron "TESTING_ENV_INT" " 2") "TESTING_ENV_INT"
        (env.parsers.Int 64) [] = [2] ∧
      env.Int 32 (setenv emptyEnviron "TESTING_ENV_INT" " 2") "TESTING_ENV_INT" 1 =
        Except.error (strconv.syntaxError "Atoi" " 2") ∧
      env.List (setenv emptyEnviron "TESTING_ENV_INT" " 2") "TESTING_ENV_INT"
        (env.parsers.Int 32) [] = [2] :=
  ⟨by decide, by decide,
    ((Parse_raw_List_trimmed (setenv emptyEnviron "TESTING_ENV_INT" " 2") "TESTING_ENV_INT"
      " 2" (env.parsers.Int 64) 1 [] (by decide) (by decide)).1).trans (by decide),
    ((Parse_raw_List_trimmed (setenv emptyEnviron "TESTING_ENV_INT" " 2") "TESTING_ENV_INT"
      " 2" (env.parsers.Int 64) 1 [] (by decide) (by decide)).2).trans (by decide),
    ((Parse_raw_List_trimmed (setenv emptyEnviron "TESTING_ENV_INT" " 2") "TESTING_ENV_INT"
      " 2" (env.parsers.Int 32) 1 [] (by decide) (by decide)).1).trans (by decide),
    ((Parse_raw_List_trimmed (setenv emptyEnviron "TESTING_ENV_INT" " 2") "TESTING_ENV_INT"
      " 2" (env.parsers.Int 32) 1 [] (by decide) (by decide)).2).trans (by decide)⟩

/-! ## `strings.TrimSpace` leaves no white space at either end -/

theorem TrimSpace_data (s : GoString) :
    (strings.TrimSpace s).data =
      List.rdropWhile unicode.IsSpace (s.data.dropWhile unicode.IsSpace) := rfl

theorem TrimSpace_subset (s : GoString) (c : Char) (hc : c ∈ (strings.TrimSpace s).data) :
    c ∈ s.data := by
  rw [TrimSpace_data] at hc
  exact List.dropWhile_subset _ ((List.rdropWhile_prefix unicode.IsSpace _).sublist.subset hc)

theorem TrimSpace_head (s : GoString) (c : Char)
    (hc : (strings.TrimSpace s).data.head? = some c) : unicode.IsSpace c = false := by
  rw [TrimSpace_data] at hc
  have hpre := List.rdropWhile_prefix unicode.IsSpace (s.data.dropWhile unicode.IsSpace)
  obtain ⟨t, ht⟩ := hpre
  cases hr : List.rdropWhile unicode.IsSpace (s.data.dropWhile unicode.IsSpace) with
  | nil => rw [hr] at hc; simp at hc
  | cons a r =>
    rw [hr] at hc ht
    simp only [List.head?_cons, Option.some.injEq] at hc
    subst hc
    have hnot := List.head?_dropWhile_not unicode.IsSpace s.data
    rw [← ht] at hnot
    simpa using hnot

theorem TrimSpace_last (s : GoString) (c : Char)
    (hc : (strings.TrimSpace s).data.getLast? = some c) : unicode.IsSpace c = false := by
  rw [TrimSpace_data] at hc
  have hne : List.rdropWhile unicode.IsSpace (s.data.dropWhile unicode.IsSpace) ≠ [] := by
    intro h
    rw [h] at hc
    simp at hc
  have hlast := List.rdropWhile_last_not unicode.IsSpace
    (s.data.dropWhile unicode.IsSpace) hne
  rw [List.getLast?_eq_getLast _ hne, Option.some.injEq] at hc
  rw [hc] at hlast
  simpa using hlast

theorem TrimSpace_isListElement (w : GoString) (hw : ',' ∉ w.data) :
    isListElement (strings.TrimSpace w) :=
  ⟨fun h => hw (TrimSpace_subset w ',' h), TrimSpace_head w, TrimSpace_last w⟩

/-- C15. List with the Identity parser never uses the fallback for a present key: for a key
present with value `v` the result is the trimmed segments of `v`, whatever the fallback;
it is a non-empty list of (number of commas in `v`) + 1 elements, and every element
contains no comma and has neither leading nor trailing white space. -/
theorem List_Identity_present (environ : Environ) (key v : GoString)
    (fb : Slice GoString) (hpresent : environ key = some v) :
    env.List environ key env.parsers.Identity fb =
        (strings.Split v ',').map strings.TrimSpace ∧
      env.List environ key env.parsers.Identity fb ≠ [] ∧
      (env.List environ key env.parsers.Identity fb).length = v.data.count ',' + 1 ∧
      (∀ x ∈ env.List environ key env.parsers.Identity fb, isListElement x) ∧
      ∀ fb' : Slice GoString,
        env.List environ key env.parsers.Identity fb' =
          env.List environ key env.parsers.Identity fb := by
  have h : ∀ fb' : Slice GoString, env.List environ key env.parsers.Identity fb' =
      (strings.Split v ',').map strings.TrimSpace := by
    intro fb'
    rw [List_of_trimmed environ key v env.parsers.Identity fb' _ hpresent rfl
      (fun _ _ => rfl)]
    exact List.map_id _
  have hlen : ((strings.Split v ',').map strings.TrimSpace).length = v.data.count ',' + 1 := by
    rw [List.length_map, Split_length]
  refine ⟨h fb, ?_, ?_, ?_, fun fb' => (h fb').trans (h fb).symm⟩
  · rw [h fb]
    intro hnil
    rw [hnil] at hlen
    simp at hlen
  · rw [h fb]
    exact hlen
  · rw [h fb]
    intro x hx
    obtain ⟨w, hw, rfl⟩ := List.mem_map.mp hx
    exact TrimSpace_isListElement w (Split_no_comma v w hw)

/-- C15, at the value " A ,, B\t": three segments, trimmed, the fallback unused. -/
theorem List_Identity_present_witness :
    setenv emptyEnviron "TESTING_ENV_STRING" " A ,, B\t" "TESTING_ENV_STRING" =
        some " A ,, B\t" ∧
      env.List (setenv emptyEnviron "TESTING_ENV_STRING" " A ,, B\t") "TESTING_ENV_STRING"
        env.parsers.Identity ["X"] = ["A", "", "B"] :=
  ⟨by decide,
    ((List_Identity_present (setenv emptyEnviron "TESTING_ENV_STRING" " A ,, B\t")
      "TESTING_ENV_STRING" " A ,, B\t" ["X"] (by decide)).1).trans (by decide)⟩

/-! ## Integer literals outside the `int64` range -/

theorem decimalValue_ge : ∀ (ds : List Char) (n v : Nat), decimalValue ds n = some v → n ≤ v := by
  intro ds
  induction ds with
  | nil =>
    intro n v h
    simp only [decimalValue, Option.some.injEq] at h
    omega
  | cons c cs ih =>
    intro n v h
    simp only [decimalValue] at h
    split_ifs at h with hc
    have := ih _ v h
    omega

theorem digit_of_decimal (c : Char) (hc : 48 ≤ c.toNat ∧ c.toNat ≤ 57) :
    strconv.ParseUint.digit c = some (c.toNat - 48) := by
  unfold strconv.ParseUint.digit
  rw [if_neg (by omega), if_pos hc]

theorem ParseUint_loop_decimal (s0 : GoString) :
    ∀ (ds : List Char) (acc v : Nat), decimalValue ds acc = some v →
      acc < 18446744073709551616 →
      strconv.ParseUint.loop s0 1844674407370955162 18446744073709551615 ds acc =
        if v < 18446744073709551616 then (v, none)
        else (18446744073709551615, some (strconv.rangeError "ParseUint" s0)) := by
  intro ds
  induction ds with
  | nil =>
    intro acc v h hacc
    simp only [decimalValue, Option.some.injEq] at h
    subst h
    rw [if_pos hacc]
    rfl
  | cons c cs ih =>
    intro acc v h hacc
    simp only [decimalValue] at h
    split_ifs at h with hc
    have hge := decimalValue_ge cs _ v h
    have hd : ¬ (c.toNat - 48 ≥ 10) := by omega
    simp only [strconv.ParseUint.loop, digit_of_decimal c hc, Nat.reducePow]
    rw [if_neg hd]
    by_cases h1 : acc ≥ 1844674407370955162
    · rw [if_pos h1, if_neg (by omega)]
    · rw [if_neg h1]
      have hm : acc * 10 % 18446744073709551616 = acc * 10 := Nat.mod_eq_of_lt (by omega)
      rw [hm]
      by_cases h2 : acc * 10 + (c.toNat - 48) < 18446744073709551616
      · have hn : (acc * 10 + (c.toNat - 48)) % 18446744073709551616 =
            acc * 10 + (c.toNat - 48) := Nat.mod_eq_of_lt h2
        rw [hn, if_neg (by omega)]
        exact ih _ v h h2
      · have hn : (acc * 10 + (c.toNat - 48)) % 18446744073709551616 < acc * 10 := by omega
        rw [if_pos (Or.inl hn), if_neg (by omega)]

theorem ParseUint_decimal (w : Nat) (ds : List Char) (v : Nat) (hne : ds ≠ [])
    (hv : decimalValue ds 0 = some v) :
    strconv.ParseUint w ⟨ds⟩ 64 =
      if v < 18446744073709551616 then (v, none)
      else (18446744073709551615, some (strconv.rangeError "ParseUint" ⟨ds⟩)) := by
  have hs : (String.mk ds) ≠ "" := by
    intro h
    exact hne (congrArg String.data h)
  unfold strconv.ParseUint
  rw [if_neg hs, if_neg (by omega)]
  have h := ParseUint_loop_decimal ⟨ds⟩ ds 0 v hv (by omega)
  norm_num
  exact h

theorem ParseInt_minus_range (intSize : Nat) (r : List Char) (bitSize un : Nat)
    (err : Option error) (hu : strconv.ParseUint intSize ⟨r⟩ bitSize = (un, err))
    (herr : err = none ∨ err = some (strconv.rangeError "ParseUint" ⟨r⟩)) :
    strconv.ParseInt intSize ⟨'-' :: r⟩ bitSize =
      strconv.ParseInt.range intSize ⟨'-' :: r⟩ bitSize true un := by
  unfold strconv.ParseInt
  rw [if_neg (by simp [String.ext_iff])]
  rcases herr with rfl | rfl
  · simp only [hu]
  · simp only [hu, strconv.rangeError]
    simp

theorem ParseInt_plus_range (intSize : Nat) (r : List Char) (bitSize un : Nat)
    (err : Option error) (hu : strconv.ParseUint intSize ⟨r⟩ bitSize = (un, err))
    (herr : err = none ∨ err = some (strconv.rangeError "ParseUint" ⟨r⟩)) :
    strconv.ParseInt intSize ⟨'+' :: r⟩ bitSize =
      strconv.ParseInt.range intSize ⟨'+' :: r⟩ bitSize false un := by
  unfold strconv.ParseInt
  rw [if_neg (by simp [String.ext_iff])]
  rcases herr with rfl | rfl
  · simp only [hu]
  · simp only [hu, strconv.rangeError]
    simp

theorem ParseInt_unsigned_range (intSize : Nat) (s : GoString) (bitSize un : Nat)
    (err : Option error) (hs : s ≠ "") (hplus : s.data.head? ≠ some '+')
    (hminus : s.data.head? ≠ some '-')
    (hu : strconv.ParseUint intSize s bitSize = (un, err))
    (herr : err = none ∨ err = some (strconv.rangeError "ParseUint" s)) :
    strconv.ParseInt intSize s bitSize =
      strconv.ParseInt.range intSize s bitSize false un := by
  unfold strconv.ParseInt
  rw [if_neg hs]
  split
  rename_i x neg r hr
  split at hr
  · rename_i r' hr'
    simp [hr'] at hplus
  · rename_i r' hr'
    simp [hr'] at hminus
  · simp only [Prod.mk.injEq] at hr
    obtain ⟨rfl, rfl⟩ := hr
    rcases herr with rfl | rfl
    · simp only [hu]
    · simp only [hu, strconv.rangeError]
      simp

theorem ParseInt_range_above (intSize : Nat) (s0 : GoString) (un : Nat)
    (h : 9223372036854775808 ≤ un) :
    strconv.ParseInt.range intSize s0 64 false un =
      (9223372036854775807, some (strconv.rangeError "ParseInt" s0)) := by
  have hc : (2 : Nat) ^ (64 - 1) % 2 ^ 64 = 9223372036854775808 := by norm_num
  have hv : wrapInt 64 (((9223372036854775808 + 2 ^ 64 - 1) % 2 ^ 64 : Nat) : Int) =
      9223372036854775807 := by
    unfold wrapInt
    norm_num
  unfold strconv.ParseInt.range
  simp only [OfNat.ofNat_ne_zero, if_false, hc, Bool.not_false, true_and]
  rw [if_pos h, hv]

theorem ParseInt_range_below (intSize : Nat) (s0 : GoString) (un : Nat)
    (h : 9223372036854775808 < un) :
    strconv.ParseInt.range intSize s0 64 true un =
      (-9223372036854775808, some (strconv.rangeError "ParseInt" s0)) := by
  have hc : (2 : Nat) ^ (64 - 1) % 2 ^ 64 = 9223372036854775808 := by norm_num
  have hv : wrapInt 64 (-(wrapInt 64 ((9223372036854775808 : Nat) : Int))) =
      -9223372036854775808 := by
    unfold wrapInt
    norm_num
  unfold strconv.ParseInt.range
  simp only [OfNat.ofNat_ne_zero, if_false, hc, Bool.not_true, Bool.false_eq_true, false_and,
    true_and]
  rw [if_pos h, hv]

theorem ParseUint_decimal_min (w : Nat) (ds : List Char) (v : Nat) (hne : ds ≠ [])
    (hv : decimalValue ds 0 = some v) :
    ∃ err, strconv.ParseUint w ⟨ds⟩ 64 = (min v 18446744073709551615, err) ∧
      (err = none ∨ err = some (strconv.rangeError "ParseUint" ⟨ds⟩)) := by
  rw [ParseUint_decimal w ds v hne hv]
  by_cases h : v < 18446744073709551616
  · rw [if_pos h, Nat.min_eq_left (by omega)]
    exact ⟨none, rfl, Or.inl rfl⟩
  · rw [if_neg h, Nat.min_eq_right (by omega)]
    exact ⟨_, rfl, Or.inr rfl⟩

/-- On a well-formed base-10 integer literal outside the `int64` range,
`strconv.ParseInt(s, 10, 64)` returns the nearest `int64` together with a range error. -/
theorem ParseInt_out_of_range (w : Nat) (s : GoString) (n : Int)
    (hlit : intLiteral s = some n) (hout : ¬ inIntRange 64 n) :
    strconv.ParseInt w s 64 =
      (if n < 0 then -9223372036854775808 else 9223372036854775807,
        some (strconv.rangeError "ParseInt" s)) := by
  have hr : ¬ (-9223372036854775808 ≤ n ∧ n < 9223372036854775808) := by
    unfold inIntRange at hout
    norm_num at hout ⊢
    exact hout
  unfold intLiteral at hlit
  split at hlit
  · rename_i ds hds
    have hs : s = ⟨'+' :: ds⟩ := String.ext hds
    split_ifs at hlit with hnil
    cases hv : decimalValue ds 0 with
    | none => simp [hv] at hlit
    | some v =>
      simp only [hv, Option.map_some', Option.some.injEq, Int.ofNat_eq_coe] at hlit
      obtain ⟨err, hu, herr⟩ := ParseUint_decimal_min w ds v hnil hv
      rw [hs, ParseInt_plus_range w ds 64 _ err hu herr,
        ParseInt_range_above w _ _ (by omega), if_neg (by omega)]
  · rename_i ds hds
    have hs : s = ⟨'-' :: ds⟩ := String.ext hds
    split_ifs at hlit with hnil
    cases hv : decimalValue ds 0 with
    | none => simp [hv] at hlit
    | some v =>
      simp only [hv, Option.map_some', Option.some.injEq, Int.ofNat_eq_coe] at hlit
      obtain ⟨err, hu, herr⟩ := ParseUint_decimal_min w ds v hnil hv
      rw [hs, ParseInt_minus_range w ds 64 _ err hu herr,
        ParseInt_range_below w _ _ (by omega), if_pos (by omega)]
  · rename_i ds hplus hminus
    split_ifs at hlit with hnil
    cases hv : decimalValue s.data 0 with
    | none => simp [hv] at hlit
    | some v =>
      simp only [hv, Option.map_some', Option.some.injEq, Int.ofNat_eq_coe] at hlit
      obtain ⟨err, hu, herr⟩ := ParseUint_decimal_min w s.data v hnil hv
      have hs : s ≠ "" := fun h => hnil (congrArg String.data h)
      have h1 : s.data.head? ≠ some '+' := by
        intro h
        cases hd : s.data with
        | nil => exact hnil hd
        | cons c cs =>
          rw [hd] at h
          simp only [List.head?_cons, Option.some.injEq] at h
          exact hplus cs (by rw [hd, h])
      have h2 : s.data.head? ≠ some '-' := by
        intro h
        cases hd : s.data with
        | nil => exact hnil hd
        | cons c cs =>
          rw [hd] at h
          simp only [List.head?_cons, Option.some.injEq] at h
          exact hminus cs (by rw [hd, h])
      rw [ParseInt_unsigned_range w s 64 _ err hs h1 h2 hu herr,
        ParseInt_range_above w _ _ (by omega), if_neg (by omega)]

/-- C16. Out-of-range integers are fatal, not clamped: for a well-formed base-10 integer
literal `s` whose value lies outside the `int64` range, `Int64` on a key present with
value `s` panics with the range error of `ParseInt`, returning neither the nearest
`int64` that `ParseInt` hands back next to the error, nor the fallback, nor zero; and
List with the Int64 parser returns the fallback when a segment, trimmed, is `s`. -/
theorem Int64_out_of_range_panics (intSize : Nat) (s : GoString) (n : Int)
    (hlit : intLiteral s = some n) (hout : ¬ inIntRange 64 n) :
    (∀ (environ : Environ) (key : GoString) (fb : GoInt64), environ key = some s →
      env.Int64 intSize environ key fb = Except.error (strconv.rangeError "ParseInt" s)) ∧
    (∀ (environ : Environ) (key v : GoString) (fb : Slice GoInt64) (w : GoString),
      environ key = some v → w ∈ strings.Split v ',' → strings.TrimSpace w = s →
      env.List environ key (env.parsers.Int64 intSize) fb = fb) ∧
    (strconv.ParseInt intSize s 64).1 =
      if n < 0 then -9223372036854775808 else 9223372036854775807 := by
  have hp := ParseInt_out_of_range intSize s n hlit hout
  refine ⟨?_, ?_, ?_⟩
  · intro environ key fb hpresent
    rw [env.Int64, Parse_present environ key s _ fb hpresent, must_error_iff]
    show (strconv.ParseInt intSize s 64).2 = _
    rw [hp]
  · intro environ key v fb w hpresent hw htrim
    apply List_fallback_of_failed_segment environ key v _ fb w hpresent hw
    show (strconv.ParseInt intSize (strings.TrimSpace w) 64).2 ≠ none
    rw [htrim, hp]
    simp
  · rw [hp]

/-- C16, at the literal "9223372036854775808": `Int64` panics with the range error, and
List with the Int64 parser on "1, 9223372036854775808" returns the fallback. -/
theorem Int64_out_of_range_panics_witness :
    intLiteral "9223372036854775808" = some 9223372036854775808 ∧
      ¬ inIntRange 64 9223372036854775808 ∧
      env.Int64 64 (setenv emptyEnviron "TESTING_ENV_INT64" "9223372036854775808")
          "TESTING_ENV_INT64" 1 =
        Except.error (strconv.rangeError "ParseInt" "9223372036854775808") ∧
      env.List (setenv emptyEnviron "TESTING_ENV_STRING" "1, 9223372036854775808")
        "TESTING_ENV_STRING" (env.parsers.Int64 64) [1, 2, 3] = [1, 2, 3] :=
  ⟨by decide, by unfold inIntRange; decide,
    (Int64_out_of_range_panics 64 "9223372036854775808" 9223372036854775808 (by decide)
      (by unfold inIntRange; decide)).1
      (setenv emptyEnviron "TESTING_ENV_INT64" "9223372036854775808") "TESTING_ENV_INT64" 1
      (by decide),
    (Int64_out_of_range_panics 64 "9223372036854775808" 9223372036854775808 (by decide)
      (by unfold inIntRange; decide)).2.1
      (setenv emptyEnviron "TESTING_ENV_STRING" "1, 9223372036854775808")
      "TESTING_ENV_STRING" "1, 9223372036854775808" [1, 2, 3] " 9223372036854775808"
      (by decide) (by decide) (by decide)⟩
